import Mathlib

/-!
# CGI provider of motan-go: response parser, argument encoder and call

A shallow embedding of `provider/cgi.go`.

Modelling conventions.

* A Go `string` is modelled by the list of its Unicode code points (`GoString`); the
  embedding therefore speaks about well-formed UTF-8 text.  All separators the program
  searches for are ASCII, so searching by code point and searching by byte agree.
* A Go `map[string]string` is modelled by an association list with pairwise distinct keys
  (`GoMap`); `nil` maps are `none` where the program can return one.
* A Go `int` is a 64-bit signed integer, modelled by `Int`; the only producer of `int`
  values here is `strconv.Atoi`, whose results are clamped to the 64-bit range.
* A run-time panic is the `Except.error` case of the result.
* The order in which a `range` statement visits a map is an input of the model.
* The library functions (`strings`, `strconv`, `net/url`) are modelled after their
  documented behaviour; the functions of `cgi.go` are transcribed statement by statement.
-/

namespace CgiProvider

/-! ## Strings -/

/-- A Go string as the list of its code points. -/
abbrev GoString := List Char

/-- The header/body separator searched by `ParseFastCgiResponse`. -/
def sepCRLFCRLF : GoString := ['\r', '\n', '\r', '\n']

/-- The line separator of the header block. -/
def sepCRLF : GoString := ['\r', '\n']

/-- The literal `"Status:"`. -/
def statusPrefix : GoString := "Status:".toList

/-- The literal `"Status"`. -/
def statusKey : GoString := "Status".toList

/-- The message of the error returned when the separator is missing. -/
def parseErrMsg : GoString := "Cannot parse FastCGI Response".toList

/-- Go `strings.HasPrefix`. -/
def HasPrefix (s pre : GoString) : Bool := pre.isPrefixOf s

/-- Go `strings.Index` followed by the two slices `s[:m]` and `s[m+len(sep):]` that
`genSplit` takes: the text before and after the first occurrence of `sep`. -/
def cutAt (sep : GoString) : GoString → Option (GoString × GoString)
  | [] => if sep.isPrefixOf [] then some ([], []) else none
  | c :: cs =>
    if sep.isPrefixOf (c :: cs) then some ([], (c :: cs).drop sep.length)
    else match cutAt sep cs with
      | none => none
      | some (a, b) => some (c :: a, b)

/-- The loop of Go `strings.genSplit`: at most `k` cuts, the rest is the last piece. -/
def splitLoop (sep : GoString) : Nat → GoString → List GoString
  | 0, s => [s]
  | k + 1, s =>
    match cutAt sep s with
    | none => [s]
    | some (a, b) => a :: splitLoop sep k b

/-- Go `strings.explode`: the pieces of one code point each, at most `n` of them
(the last piece is the remainder). -/
def explode : GoString → Nat → List GoString
  | _, 0 => []
  | [], _ + 1 => []
  | s, 1 => [s]
  | c :: cs, n + 2 => if cs = [] then [[c]] else [c] :: explode cs (n + 1)

/-- Go `strings.SplitN` (`genSplit` with `sepSave = 0`).  For a negative `n` the library
sets `n` to `Count(s, sep) + 1`; the loop stops at the last occurrence anyway, so the bound
`len(s) + 1`, to which the library clamps every `n`, gives the same pieces. -/
def SplitN (s sep : GoString) (n : Int) : List GoString :=
  if n = 0 then []
  else if sep = [] then explode s (if n < 0 then s.length else n.toNat)
  else
    let m : Nat := if n < 0 then s.length + 1 else n.toNat
    let m := if m > s.length + 1 then s.length + 1 else m
    splitLoop sep (m - 1) s

/-- Go `strings.Split`, which is `genSplit(s, sep, 0, -1)`. -/
def Split (s sep : GoString) : List GoString := SplitN s sep (-1)

/-- Go `unicode.IsSpace`. -/
def isSpace (c : Char) : Bool :=
  let n := c.toNat
  n = 0x20 || (0x09 ≤ n && n ≤ 0x0D) || n = 0x85 || n = 0xA0 || n = 0x1680 ||
  (0x2000 ≤ n && n ≤ 0x200A) || n = 0x2028 || n = 0x2029 || n = 0x202F ||
  n = 0x205F || n = 0x3000

/-- Go `strings.TrimSpace`. -/
def TrimSpace (s : GoString) : GoString :=
  ((s.dropWhile isSpace).reverse.dropWhile isSpace).reverse

/-! ## `strconv.Atoi` -/

/-- The two kinds of `strconv.NumError`. -/
inductive NumError where
  | errSyntax
  | errRange
  deriving DecidableEq, Repr

/-- Width of Go `int` (`strconv.IntSize`) on the 64-bit targets. -/
def intSize : Nat := 64

/-- The largest `uint64`. -/
def maxUint64 : Nat := 2 ^ 64 - 1

/-- The digit loop of `strconv.ParseUint(s, 10, 64)`, `n` being the value read so far. -/
def parseUintLoop : GoString → Nat → Nat × Option NumError
  | [], n => (n, none)
  | c :: cs, n =>
    if '0' ≤ c ∧ c ≤ '9' then
      if n ≥ maxUint64 / 10 + 1 then (maxUint64, some .errRange)
      else
        let n1 := n * 10 + (c.toNat - '0'.toNat)
        if n1 > maxUint64 then (maxUint64, some .errRange)
        else parseUintLoop cs n1
    else (0, some .errSyntax)

/-- Go `strconv.ParseUint(s, 10, 64)`. -/
def ParseUint (s : GoString) : Nat × Option NumError :=
  if s = [] then (0, some .errSyntax) else parseUintLoop s 0

/-- Go `strconv.ParseInt(s, 10, 0)`. -/
def ParseInt (s : GoString) : Int × Option NumError :=
  match s with
  | [] => (0, some .errSyntax)
  | c :: cs =>
    let neg := decide (c = '-')
    let body := if c = '+' ∨ c = '-' then cs else c :: cs
    match ParseUint body with
    | (_, some .errSyntax) => (0, some .errSyntax)
    | (un, _) =>
      let cutoff : Nat := 2 ^ (intSize - 1)
      if ¬ neg ∧ un ≥ cutoff then ((cutoff : Int) - 1, some .errRange)
      else if neg ∧ un > cutoff then (-(cutoff : Int), some .errRange)
      else (if neg then -(un : Int) else (un : Int), none)

/-- Go `strconv.Atoi`: the documented equivalent `ParseInt(s, 10, 0)` (the fast path for
short inputs computes the same value and error). -/
def Atoi (s : GoString) : Int × Option NumError := ParseInt s

/-! ## Maps -/

/-- A Go `map[string]string`: an association list with pairwise distinct keys. -/
abbrev GoMap := List (GoString × GoString)

/-- The map read `m[k]` with the comma-ok result. -/
def GoMap.get (m : GoMap) (k : GoString) : Option GoString := m.lookup k

/-- The map write `m[k] = v`. -/
def GoMap.set : GoMap → GoString → GoString → GoMap
  | [], k, v => [(k, v)]
  | (k0, v0) :: rest, k, v =>
    if k0 = k then (k0, v) :: rest else (k0, v0) :: GoMap.set rest k v

/-! ## `ParseFastCgiResponse` -/

deriving instance DecidableEq for Except

/-- The four results of `ParseFastCgiResponse`. -/
structure ParseResult where
  status : Int
  headers : Option GoMap
  body : GoString
  err : Option GoString
  deriving DecidableEq, Repr

/-- Indexing `a[i]` of a slice, which panics out of range. -/
def index (a : List GoString) (i : Nat) : Except String GoString :=
  match a.get? i with
  | some x => .ok x
  | none => .error "index out of range"

/-- The `for _, line := range headerParts` loop (lines 172-186). -/
def headerLoop (headers : GoMap) : List GoString → GoMap
  | [] => headers
  | line :: rest =>
    match SplitN line [':'] 2 with
    | name :: value :: _ =>
      let value := TrimSpace value
      if name = statusKey then headerLoop headers rest
      else headerLoop (headers.set name value) rest
    | _ => headerLoop headers rest

/-- The function `ParseFastCgiResponse` (lines 153-189). -/
def ParseFastCgiResponse (content : GoString) : Except String ParseResult :=
  let parts := SplitN content sepCRLFCRLF 2
  if parts.length < 2 then
    .ok { status := 502, headers := none, body := [], err := some parseErrMsg }
  else do
    let part0 ← index parts 0
    let headerParts := Split part0 sepCRLF
    let body ← index parts 1
    let first ← index headerParts 0
    let status ←
      if HasPrefix first statusPrefix then do
        let lineParts := SplitN first [' '] 3
        let code ← index lineParts 1
        pure (Atoi code).1
      else pure 200
    pure { status := status, headers := some (headerLoop [] headerParts),
           body := body, err := none }

/-! ## `buildQueryStr` -/

/-- The UTF-8 encoding of a code point, as the bytes of the Go string. -/
def utf8Bytes (c : Char) : List Nat :=
  let n := c.toNat
  if n < 0x80 then [n]
  else if n < 0x800 then [0xC0 + n / 64, 0x80 + n % 64]
  else if n < 0x10000 then [0xE0 + n / 4096, 0x80 + n / 64 % 64, 0x80 + n % 64]
  else [0xF0 + n / 262144, 0x80 + n / 4096 % 64, 0x80 + n / 64 % 64, 0x80 + n % 64]

/-- Go `net/url.shouldEscape(c, encodeQueryComponent)`: every byte except the ASCII letters
and digits and `-`, `_`, `.`, `~`. -/
def shouldEscape (b : Nat) : Bool :=
  !((0x61 ≤ b && b ≤ 0x7A) || (0x41 ≤ b && b ≤ 0x5A) || (0x30 ≤ b && b ≤ 0x39) ||
    b = 0x2D || b = 0x5F || b = 0x2E || b = 0x7E)

/-- The table `upperhex` of `net/url`. -/
def upperhex (n : Nat) : Char := "0123456789ABCDEF".toList.getD n '0'

/-- One byte in the output of `net/url.escape` in the query-component mode. -/
def escapeByte (b : Nat) : GoString :=
  if b = 0x20 then ['+']
  else if shouldEscape b then ['%', upperhex (b / 16), upperhex (b % 16)]
  else [Char.ofNat b]

/-- Go `net/url.QueryEscape`. -/
def QueryEscape (s : GoString) : GoString :=
  s.flatMap (fun c => (utf8Bytes c).flatMap escapeByte)

/-- Go `fmt.Sprintf("%d", n)` for an unsigned integer. -/
def formatDecimal (n : Nat) : GoString := Nat.toDigits 10 n

/-- Modelled from the spec: the constant `motanSer.Simple` of the package
`motan-go/serialize` is not part of the sources at hand; the specification names the mode
"simple". -/
def Simple : GoString := "simple".toList

/-- The parameter name `"serialization"`. -/
def serializationKey : GoString := "serialization".toList

/-- The literal `"&requestIdFromClient="`. -/
def requestIdField : GoString := "&requestIdFromClient=".toList

/-- An element of the argument slice `[]interface{}`, as far as `buildQueryStr` tells the
values apart: by the dynamic type that `reflect.ValueOf(x).Type()` prints. -/
inductive Arg where
  /-- A value of type `string`. -/
  | str (s : GoString)
  /-- A value of type `map[string]string` (a nil map is the empty one). -/
  | strMap (m : GoMap)
  /-- A non-nil value of any other type. -/
  | other
  /-- The nil interface value, on which `reflect.Value.Type` panics. -/
  | nilValue
  deriving DecidableEq, Repr

/-- Modelled from the spec: the interface `motan.Request` is declared in the package
`motan-go/core`, outside the sources at hand; the specification's Call Context gives it
ordered arguments, an attachment mapping and a numeric request identifier, and the
provider also reads the outcome of the deserialization. -/
structure Request where
  /-- The error returned by `ProcessDeserializable`, if any. -/
  deserializeErr : Option GoString
  /-- The result of `GetArguments()`. -/
  arguments : List Arg
  /-- The result of `GetRequestID()`, a `uint64`. -/
  requestID : Nat
  /-- The result of `GetAttachments()`. -/
  attachments : GoMap
  deriving DecidableEq, Repr

/-- Modelled from the spec: the struct `motan.URL` is declared in the package
`motan-go/core`, outside the sources at hand; the provider reads its parameter mapping
(the specification's Provider Configuration). -/
structure URL where
  /-- The field `Parameters`. -/
  parameters : GoMap
  deriving DecidableEq, Repr

/-- The map read `m[k]` without the comma-ok result: the empty string for a missing key. -/
def GoMap.getD (m : GoMap) (k : GoString) : GoString := (m.get k).getD []

/-- The order in which one execution of a `range` statement visits the entries of a map;
Go leaves it unspecified, so it is an input of the model. -/
abbrev RangeOrder := GoMap → GoMap

/-- One iteration of the loop of lines 59-66, on the variables `res` and `start`. -/
def queryStep (st : GoString × Nat) (kv : GoString × GoString) : GoString × Nat :=
  if st.2 = 1 then (kv.1 ++ ['='] ++ QueryEscape kv.2, st.2 + 1)
  else (st.1 ++ ['&'] ++ kv.1 ++ ['='] ++ QueryEscape kv.2, st.2)

/-- The function `buildQueryStr` (lines 46-77); `order` is the order in which the `range`
statement of line 59 visits the map. -/
def buildQueryStr (request : Request) (url : URL) (order : RangeOrder) :
    Except String (GoString × Option GoString) :=
  let err := request.deserializeErr
  let res : Except String GoString :=
    if err = none then
      let paramsTmp := request.arguments
      match paramsTmp with
      | [] => .ok []
      | first :: _ =>
        if url.parameters.getD serializationKey = Simple then
          match first with
          | .nilValue => .error "reflect: call of reflect.Value.Type on zero Value"
          | .strMap params => .ok ((order params).foldl queryStep ([], 1)).1
          | .str s => .ok (QueryEscape s)
          | .other => .ok []
        else .ok []
    else .ok []
  match res with
  | .ok res => .ok (res ++ requestIdField ++ formatDecimal request.requestID, err)
  | .error e => .error e

/-! ## `CgiProvider.Call` -/

/-- The constant `CGIKeyPrefix`. -/
def CGIKeyPrefix : GoString := "CGI_".toList

/-- The constant `DefaultCGIHost`. -/
def DefaultCGIHost : GoString := "127.0.0.1".toList

/-- The constant `DefaultCGIPort`. -/
def DefaultCGIPort : Int := 9000

/-- The constant `HTTPMethodPOST`. -/
def HTTPMethodPOST : GoString := "POST".toList

/-- The constant `HTTPMethodGET`. -/
def HTTPMethodGET : GoString := "GET".toList

/-- The package variable `serverEnvironment`. -/
def serverEnvironment : GoMap := [("SERVER_SOFTWARE".toList, "Motan / CGI".toList)]

/-- The package variable `NeededCGIEnv`. -/
def NeededCGIEnv : List GoString :=
  ["REQUEST_METHOD".toList, "SCRIPT_FILENAME".toList, "DOCUMENT_ROOT".toList]

/-- The prefix `"MOTAN_"` of the attachment keys. -/
def motanPrefix : GoString := "MOTAN_".toList

/-- The environment key `"REQUEST_METHOD"`. -/
def keyRequestMethod : GoString := "REQUEST_METHOD".toList

/-- The environment key `"QUERY_STRING"`. -/
def keyQueryString : GoString := "QUERY_STRING".toList

/-- The environment key `"CONTENT_TYPE"`. -/
def keyContentType : GoString := "CONTENT_TYPE".toList

/-- The environment key `"CONTENT_LENGTH"`. -/
def keyContentLength : GoString := "CONTENT_LENGTH".toList

/-- The content type of a POST body. -/
def formContentType : GoString := "application/x-www-form-urlencoded".toList

/-- The parameter name `"CGI_HOST"`. -/
def keyCgiHost : GoString := "CGI_HOST".toList

/-- The parameter name `"CGI_PORT"`. -/
def keyCgiPort : GoString := "CGI_PORT".toList

/-- Go `len(s)` of a string: the number of bytes of its UTF-8 encoding. -/
def byteLen (s : GoString) : Nat := (s.flatMap utf8Bytes).length

/-- Modelled from the spec: the struct `motan.Exception` is declared in the package
`motan-go/core`, outside the sources at hand; the provider writes an error code, a
message and an error classification (the specification's failure indicator). -/
structure Exception where
  /-- The field `ErrCode`. -/
  errCode : Int
  /-- The field `ErrMsg`. -/
  errMsg : GoString
  /-- The field `ErrType`. -/
  errType : Int
  deriving DecidableEq, Repr

/-- Modelled from the spec: the struct `motan.MotanResponse` is declared in the package
`motan-go/core`, outside the sources at hand; the specification's RPC Response holds the
request identifier, the elapsed time, the attachments and either a success value or a
failure indicator. -/
structure Response where
  /-- The field `RequestID`. -/
  requestID : Nat
  /-- The field `ProcessTime`, in milliseconds. -/
  processTime : Int
  /-- The field `Attachment`. -/
  attachment : GoMap
  /-- The field `Value`: `none` is the nil interface value. -/
  value : Option GoString
  /-- The field `Exception`: `none` is the nil pointer. -/
  exception : Option Exception
  deriving DecidableEq, Repr

/-- What the FastCGI client returns: the content and the error of `ccgi.Request`. -/
structure TransportResult where
  /-- The raw content. -/
  content : GoString
  /-- The error, if any. -/
  err : Option GoString
  deriving DecidableEq, Repr

/-- The external FastCGI client (`cgi.New(host, port)` followed by
`ccgi.Request(env, reqParams)`), a collaborator of the provider: it maps host, port,
environment and body to a result, or panics. -/
abbrev Transport := GoString → Int → GoMap → GoString → Except String TransportResult

/-- Everything `Call` takes from its surroundings: the visiting orders of its `range`
statements over maps, the FastCGI client and the two readings of the clock. -/
structure Runtime where
  /-- The order of `range request.GetAttachments()` (line 103). -/
  attachOrder : RangeOrder
  /-- The order of `range params` in `buildQueryStr` (line 59). -/
  argOrder : RangeOrder
  /-- The order of `range headers` (line 145). -/
  headerOrder : RangeOrder
  /-- The FastCGI client. -/
  transport : Transport
  /-- The first reading `time.Now().UnixNano()` (line 86). -/
  startNano : Int
  /-- The second reading `time.Now().UnixNano()` (line 139). -/
  endNano : Int

/-- The loop over `NeededCGIEnv` (lines 94-101). -/
def neededLoop (url : URL) (env : GoMap) : List GoString → GoMap
  | [] => env
  | key :: rest =>
    match url.parameters.get (CGIKeyPrefix ++ key) with
    | some info => neededLoop url (env.set key info) rest
    | none => neededLoop url env rest

/-- One iteration of the loop over the attachments (lines 103-105). -/
def attachStep (env : GoMap) (kv : GoString × GoString) : GoMap :=
  env.set (motanPrefix ++ kv.1) kv.2

/-- The environment after the three loops of lines 87-105. -/
def prepareEnv (url : URL) (request : Request) (rt : Runtime) : GoMap :=
  let env : GoMap := []
  let env := serverEnvironment.foldl (fun e kv => e.set kv.1 kv.2) env
  let env := neededLoop url env NeededCGIEnv
  (rt.attachOrder request.attachments).foldl attachStep env

/-- The environment and the body that `Call` hands to the FastCGI client (lines 87-117). -/
def encodeStep (url : URL) (request : Request) (rt : Runtime) :
    Except String (GoMap × GoString) :=
  let env := prepareEnv url request rt
  let reqParams : GoString := []
  if env.getD keyRequestMethod = HTTPMethodGET then
    match buildQueryStr request url rt.argOrder with
    | .error e => .error e
    | .ok (queryStr, err) =>
      if err = none then .ok (env.set keyQueryString queryStr, reqParams)
      else .ok (env, reqParams)
  else if env.getD keyRequestMethod = HTTPMethodPOST then
    match buildQueryStr request url rt.argOrder with
    | .error e => .error e
    | .ok (getReqParams, err) =>
      let reqParams := if err = none then getReqParams else reqParams
      let env := env.set keyContentType formContentType
      let env := env.set keyContentLength (formatDecimal (byteLen reqParams))
      .ok (env, reqParams)
  else .ok (env, reqParams)

/-- The host of the FastCGI responder (lines 119-123). -/
def cgiHostOf (url : URL) : GoString :=
  match url.parameters.get keyCgiHost with
  | some host => host
  | none => DefaultCGIHost

/-- The port of the FastCGI responder (lines 120-126). -/
def cgiPortOf (url : URL) : Int :=
  match url.parameters.get keyCgiPort with
  | some portStr => (Atoi portStr).1
  | none => DefaultCGIPort

/-- The response built from the results of the parser (lines 137-150);
`resp.SetAttachment(k, v)`, a method of `motan-go/core`, is the map write
`Attachment[k] = v`. -/
def mapStep (request : Request) (rt : Runtime) (r : ParseResult) : Response :=
  let resp : Response :=
    { requestID := request.requestID,
      processTime := (rt.endNano - rt.startNano).tdiv 1000000,
      attachment := [], value := none, exception := none }
  match r.err with
  | some err =>
    { resp with exception := some { errCode := r.status, errMsg := err, errType := r.status } }
  | none =>
    let headers := r.headers.getD []
    { resp with
      attachment := (rt.headerOrder headers).foldl (fun a kv => a.set kv.1 kv.2) resp.attachment,
      value := some r.body }

/-- The body of `Call` (lines 86-150); a panic is the `error` case. The receiver field
`c.url` is a pointer, `none` being nil. -/
def callBody (url : Option URL) (request : Request) (rt : Runtime) : Except String Response :=
  match url with
  | none => .error "invalid memory address or nil pointer dereference"
  | some url => do
    let (env, reqParams) ← encodeStep url request rt
    let out ← rt.transport (cgiHostOf url) (cgiPortOf url) env reqParams
    let r ← ParseFastCgiResponse out.content
    pure (mapStep request rt r)

/-- The method `Call` (lines 79-151): the deferred function recovers a panic and logs it;
`Call` has no named result, so it then returns the nil response, which is `none`. -/
def Call (url : Option URL) (request : Request) (rt : Runtime) : Option Response :=
  match callBody url request rt with
  | .ok resp => some resp
  | .error _ => none

/-! ## Auxiliary definitions used to state and prove the properties -/

/-- The first piece of a split: the text before the first separator, or everything. -/
def firstPiece (sep s : GoString) : GoString :=
  match cutAt sep s with
  | none => s
  | some (a, _) => a

/-- A decimal digit. -/
def isDigit (c : Char) : Bool := decide ('0' ≤ c ∧ c ≤ '9')

/-- The number written by a string of decimal digits. -/
def digitsValue (ds : GoString) : Nat :=
  ds.foldl (fun a c => a * 10 + (c.toNat - '0'.toNat)) 0

/-- A token without its leading sign, if it has one. -/
def unsignedPart (tok : GoString) : GoString :=
  match tok with
  | [] => []
  | c :: cs => if c = '+' ∨ c = '-' then cs else c :: cs

/-- The integer written by a token in decimal: an optional sign followed by one or more
decimal digits; `none` for every other token. -/
def decimalValue? (tok : GoString) : Option Int :=
  if unsignedPart tok ≠ [] ∧ (unsignedPart tok).all isDigit then
    some (if tok.head? = some '-' then -(digitsValue (unsignedPart tok) : Int)
          else (digitsValue (unsignedPart tok) : Int))
  else none

/-- The whitespace-delimited tokens of a line, as the specification words them: the
maximal runs of characters that are not white space. -/
def whitespaceTokens (line : GoString) : List GoString :=
  (line.splitOnP isSpace).filter (fun t => !t.isEmpty)

/-- The text between the first space of a line and the next space (or the end of the
line): element 1 of the line split on single spaces. -/
def secondToken (line : GoString) : GoString :=
  (line.dropWhile (· != ' ')).tail.takeWhile (· != ' ')

/-- Reference definition of the header mapping, following the specification: the name `k`
is a key when it is not `Status` and some line contains a colon with `k` before its first
colon; its value is the trimmed text after the first colon of the last such line. -/
def refHeaders (lines : List GoString) (k : GoString) : Option GoString :=
  if k = statusKey then none
  else
    (lines.reverse.find? (fun l => decide (':' ∈ l) && decide (l.takeWhile (· != ':') = k))).map
      (fun l => TrimSpace (l.dropWhile (· != ':')).tail)

/-- The serialization of one header: name, colon, space, value. -/
def headerLine (p : GoString × GoString) : GoString := p.1 ++ [':', ' '] ++ p.2

/-- Lines joined by CR LF. -/
def joinLines : List GoString → GoString
  | [] => []
  | [l] => l
  | l :: l2 :: ls => l ++ sepCRLF ++ joinLines (l2 :: ls)

/-- The serialization of a well-formed FastCGI-style response: the header lines joined
by CR LF, the blank-line separator, the body. -/
def serialize (pairs : GoMap) (body : GoString) : GoString :=
  joinLines (pairs.map headerLine) ++ sepCRLFCRLF ++ body

/-- The environment before the attachments are added (lines 87-101). -/
def baseEnv (url : URL) : GoMap :=
  neededLoop url (serverEnvironment.foldl (fun e kv => e.set kv.1 kv.2) []) NeededCGIEnv

/-- The configured method: the parameter `CGI_REQUEST_METHOD`, empty when it is missing. -/
def configuredMethod (url : URL) : GoString :=
  url.parameters.getD (CGIKeyPrefix ++ keyRequestMethod)

/-- An example runtime: every `range` statement visits the map in the order given by
`order`, the FastCGI client answers `out` whatever it is asked, and the call takes 5 ms. -/
def exampleRuntime (order : RangeOrder) (out : TransportResult) : Runtime :=
  { attachOrder := order, argOrder := order, headerOrder := order,
    transport := fun _ _ _ _ => .ok out, startNano := 0, endNano := 5000000 }

/-- An example configuration: "simple" serialization and the given method. -/
def exampleURL (method : GoString) : URL :=
  { parameters := [(serializationKey, Simple), (CGIKeyPrefix ++ keyRequestMethod, method)] }

/-- An example request: one mapping argument with a non-ASCII key, request id 42, two
attachments. -/
def exampleRequest : Request :=
  { deserializeErr := none, arguments := [Arg.strMap [("é".toList, "x y".toList)]],
    requestID := 42,
    attachments := [("trace".toList, "t1".toList), ("REQUEST_METHOD".toList, "PUT".toList)] }

/-- The environment handed to the FastCGI client for `exampleRequest` with the method POST,
the attachments being visited in reverse order. -/
def exampleEnvPost : GoMap :=
  [("SERVER_SOFTWARE".toList, "Motan / CGI".toList),
   ("REQUEST_METHOD".toList, "POST".toList),
   ("MOTAN_REQUEST_METHOD".toList, "PUT".toList),
   ("MOTAN_trace".toList, "t1".toList),
   ("CONTENT_TYPE".toList, "application/x-www-form-urlencoded".toList),
   ("CONTENT_LENGTH".toList, "29".toList)]

/-- The encoded payload of `exampleRequest`. -/
def examplePayload : GoString := "é=x+y&requestIdFromClient=42".toList

/-- An example raw output with a status line and two headers. -/
def exampleOutput (statusLine : GoString) : GoString :=
  statusLine ++ "\r\nX-A: 1\r\nX-B: 2\r\n\r\nbody".toList

/-- The header map of `exampleOutput`. -/
def exampleHeaders : GoMap := [("X-A".toList, "1".toList), ("X-B".toList, "2".toList)]

/-- One field of the encoded payload: the key verbatim, `=`, the URL-escaped value. -/
def renderField (kv : GoString × GoString) : GoString := kv.1 ++ ['='] ++ QueryEscape kv.2

/-- Fields joined by `&`. -/
def joinAmp : List GoString → GoString
  | [] => []
  | [f] => f
  | f :: g :: fs => f ++ ['&'] ++ joinAmp (g :: fs)

/-! ### Reference form decoding

The decoding of `application/x-www-form-urlencoded` data that a CGI script applies to the
payload: the payload is split on `&`, each field on its first `=`, and name and value are
unescaped (`%XX` is a byte, `+` is a space). -/

/-- The value of a hexadecimal digit. -/
def hexVal (c : Char) : Option Nat :=
  if '0' ≤ c ∧ c ≤ '9' then some (c.toNat - '0'.toNat)
  else if 'a' ≤ c ∧ c ≤ 'f' then some (c.toNat - 'a'.toNat + 10)
  else if 'A' ≤ c ∧ c ≤ 'F' then some (c.toNat - 'A'.toNat + 10)
  else none

/-- The bytes written by an escaped string: `%XX` is the byte `XX`, `+` is a space, every
other character stands for itself; `none` when a `%` is not followed by two hexadecimal
digits. -/
def unescapeBytes : GoString → Option (List Nat)
  | [] => some []
  | c :: rest =>
    if c = '%' then
      match rest with
      | h1 :: h2 :: rest2 =>
        match hexVal h1, hexVal h2, unescapeBytes rest2 with
        | some a, some b, some bs => some ((a * 16 + b) :: bs)
        | _, _, _ => none
      | _ => none
    else if c = '+' then
      match unescapeBytes rest with
      | some bs => some (0x20 :: bs)
      | none => none
    else
      match unescapeBytes rest with
      | some bs => some (utf8Bytes c ++ bs)
      | none => none

/-- The code points of a UTF-8 byte sequence (the inverse of `utf8Bytes` on well-formed
sequences; an ill-formed tail is read as U+FFFD). -/
def utf8Decode : List Nat → GoString
  | [] => []
  | b0 :: rest =>
    if b0 < 0x80 then Char.ofNat b0 :: utf8Decode rest
    else if b0 < 0xC0 then Char.ofNat 0xFFFD :: utf8Decode rest
    else if b0 < 0xE0 then
      match rest with
      | b1 :: rest1 => Char.ofNat ((b0 - 0xC0) * 64 + (b1 - 0x80)) :: utf8Decode rest1
      | _ => [Char.ofNat 0xFFFD]
    else if b0 < 0xF0 then
      match rest with
      | b1 :: b2 :: rest2 =>
        Char.ofNat ((b0 - 0xE0) * 4096 + (b1 - 0x80) * 64 + (b2 - 0x80)) :: utf8Decode rest2
      | _ => [Char.ofNat 0xFFFD]
    else
      match rest with
      | b1 :: b2 :: b3 :: rest3 =>
        Char.ofNat ((b0 - 0xF0) * 262144 + (b1 - 0x80) * 4096 + (b2 - 0x80) * 64 + (b3 - 0x80))
          :: utf8Decode rest3
      | _ => [Char.ofNat 0xFFFD]

/-- Percent/plus unescaping of a name or a value (Go `net/url.QueryUnescape`). -/
def QueryUnescape (s : GoString) : Option GoString := (unescapeBytes s).map utf8Decode

/-- A field split on its first `=`; the value is empty when there is none. -/
def cutField (field : GoString) : GoString × GoString :=
  (field.takeWhile (· != '='), (field.dropWhile (· != '=')).tail)

/-- One field decoded; empty fields and fields that cannot be unescaped are dropped. -/
def decodeField (field : GoString) : Option (GoString × GoString) :=
  if field = [] then none
  else
    match QueryUnescape (cutField field).1, QueryUnescape (cutField field).2 with
    | some k, some v => some (k, v)
    | _, _ => none

/-- Reference form decoding of a payload: the list of its (name, value) fields. -/
def formDecode (payload : GoString) : List (GoString × GoString) :=
  (Split payload ['&']).filterMap decodeField

/-- The name of the request-id field. -/
def requestIdName : GoString := "requestIdFromClient".toList

/-- The status computed from the first header line (lines 165-170). -/
def statusOfLine (first : GoString) : Except String Int :=
  if HasPrefix first statusPrefix then
    match index (SplitN first [' '] 3) 1 with
    | .ok code => .ok (Atoi code).1
    | .error e => .error e
  else .ok 200

/-- The result of the parser once the separator has been found (lines 162-188). -/
def parseAfterCut (hdr body : GoString) : Except String ParseResult := do
  let headerParts := Split hdr sepCRLF
  let first ← index headerParts 0
  let status ←
    if HasPrefix first statusPrefix then do
      let lineParts := SplitN first [' '] 3
      let code ← index lineParts 1
      pure (Atoi code).1
    else pure 200
  pure { status := status, headers := some (headerLoop [] headerParts),
         body := body, err := none }

/-! # Properties -/

/-! ## Facts about the first occurrence of a separator -/

theorem cutAt_eq_append {sep : GoString} :
    ∀ {s a b : GoString}, cutAt sep s = some (a, b) → s = a ++ sep ++ b := by
  intro s
  induction s with
  | nil =>
    intro a b h
    simp only [cutAt] at h
    split at h
    · rename_i hp
      have : sep = [] := by simpa using hp
      simp only [Option.some.injEq, Prod.mk.injEq] at h
      obtain ⟨rfl, rfl⟩ := h
      simp [this]
    · cases h
  | cons c cs ih =>
    intro a b h
    simp only [cutAt] at h
    split at h
    · rename_i hp
      simp only [Option.some.injEq, Prod.mk.injEq] at h
      obtain ⟨rfl, rfl⟩ := h
      have hp2 : sep <+: c :: cs := List.isPrefixOf_iff_prefix.mp hp
      have := List.prefix_iff_eq_append.mp hp2
      simpa using this.symm
    · split at h
      · cases h
      · rename_i a0 b0 hrec
        simp only [Option.some.injEq, Prod.mk.injEq] at h
        obtain ⟨rfl, rfl⟩ := h
        have := ih hrec
        simp [this]

theorem cutAt_minimal {sep : GoString} :
    ∀ {s a b : GoString}, cutAt sep s = some (a, b) →
      ∀ a2 b2 : GoString, s = a2 ++ sep ++ b2 → a.length ≤ a2.length := by
  intro s
  induction s with
  | nil =>
    intro a b h a2 b2 _
    simp only [cutAt] at h
    split at h
    · simp only [Option.some.injEq, Prod.mk.injEq] at h
      obtain ⟨rfl, rfl⟩ := h
      simp
    · cases h
  | cons c cs ih =>
    intro a b h a2 b2 h2
    simp only [cutAt] at h
    split at h
    · simp only [Option.some.injEq, Prod.mk.injEq] at h
      obtain ⟨rfl, rfl⟩ := h
      simp
    · rename_i hp
      split at h
      · cases h
      · rename_i a0 b0 hrec
        simp only [Option.some.injEq, Prod.mk.injEq] at h
        obtain ⟨rfl, rfl⟩ := h
        cases a2 with
        | nil =>
          exfalso
          apply hp
          apply List.isPrefixOf_iff_prefix.mpr
          exact ⟨b2, by simpa using h2.symm⟩
        | cons d ds =>
          have h3 : cs = ds ++ sep ++ b2 := by
            simp only [List.cons_append, List.cons.injEq] at h2
            exact h2.2
          have := ih hrec ds b2 h3
          simpa using this

theorem cutAt_eq_none {sep : GoString} :
    ∀ {s : GoString}, cutAt sep s = none ↔ ¬ sep <:+: s := by
  intro s
  induction s with
  | nil =>
    simp only [cutAt]
    constructor
    · intro h hin
      split at h
      · cases h
      · rename_i hp
        apply hp
        have : sep = [] := by simpa using hin
        simp [this]
    · intro h
      split
      · rename_i hp
        exfalso
        apply h
        have : sep = [] := by simpa using hp
        simp [this]
      · rfl
  | cons c cs ih =>
    simp only [cutAt]
    constructor
    · intro h hin
      split at h
      · cases h
      · rename_i hp
        split at h
        · rename_i hrec
          have hno := ih.mp hrec
          rcases List.infix_cons_iff.mp hin with h1 | h1
          · exact hp (List.isPrefixOf_iff_prefix.mpr h1)
          · exact hno h1
        · cases h
    · intro h
      split
      · rename_i hp
        exact absurd ((List.isPrefixOf_iff_prefix.mp hp).isInfix) h
      · split
        · rfl
        · rename_i a0 b0 hrec
          exfalso
          have : ¬ sep <:+: cs := fun hh => h (List.infix_cons hh)
          rw [ih.mpr this] at hrec
          cases hrec

theorem cutAt_of_first {sep s a b : GoString} (h : s = a ++ sep ++ b)
    (hmin : ∀ a2 b2 : GoString, s = a2 ++ sep ++ b2 → a.length ≤ a2.length) :
    cutAt sep s = some (a, b) := by
  cases hc : cutAt sep s with
  | none =>
    exfalso
    exact (cutAt_eq_none.mp hc) ⟨a, b, h.symm⟩
  | some p =>
    obtain ⟨a0, b0⟩ := p
    have e0 := cutAt_eq_append hc
    have l1 := cutAt_minimal hc a b h
    have l2 := hmin a0 b0 e0
    have hl : a0.length = a.length := le_antisymm l1 l2
    have e : a0 ++ (sep ++ b0) = a ++ (sep ++ b) := by
      rw [← List.append_assoc, ← List.append_assoc, ← e0, ← h]
    have ha : a0 = a := List.append_inj_left e hl
    subst ha
    have := List.append_cancel_left (List.append_cancel_left e)
    subst this
    rfl

/-! ## Facts about `SplitN` and `Split` -/

theorem cutAt_nil_of_ne {sep : GoString} (hsep : sep ≠ []) : cutAt sep [] = none := by
  cases sep with
  | nil => exact absurd rfl hsep
  | cons c cs => simp [cutAt, List.isPrefixOf]

theorem SplitN_two {sep : GoString} (hsep : sep ≠ []) (s : GoString) :
    SplitN s sep 2 =
      match cutAt sep s with
      | none => [s]
      | some (a, b) => [a, b] := by
  cases s with
  | nil =>
    simp [SplitN, hsep, splitLoop, cutAt_nil_of_ne hsep]
  | cons c cs =>
    have h2 : ¬ (2 > (c :: cs).length + 1) := by simp
    simp only [SplitN, hsep, if_false, h2]
    norm_num [splitLoop]

theorem Split_eq {sep : GoString} (hsep : sep ≠ []) (s : GoString) :
    Split s sep = splitLoop sep s.length s := by
  simp [Split, SplitN, hsep]

theorem splitLoop_head (sep : GoString) (k : Nat) (s : GoString) (hk : s ≠ [] → 0 < k)
    (hsep : sep ≠ []) :
    ∃ tl, splitLoop sep k s = firstPiece sep s :: tl := by
  cases k with
  | zero =>
    have hs : s = [] := by
      by_contra h
      exact absurd (hk h) (by simp)
    subst hs
    exact ⟨[], by simp [splitLoop, firstPiece, cutAt_nil_of_ne hsep]⟩
  | succ k =>
    simp only [splitLoop, firstPiece]
    cases cutAt sep s with
    | none => exact ⟨[], rfl⟩
    | some p => exact ⟨splitLoop sep k p.2, rfl⟩

theorem Split_head {sep : GoString} (hsep : sep ≠ []) (s : GoString) :
    ∃ tl, Split s sep = firstPiece sep s :: tl := by
  rw [Split_eq hsep]
  apply splitLoop_head _ _ _ _ hsep
  intro h
  exact List.length_pos.mpr h

theorem sepCRLFCRLF_ne : sepCRLFCRLF ≠ [] := by simp [sepCRLFCRLF]

theorem sepCRLF_ne : sepCRLF ≠ [] := by simp [sepCRLF]

theorem Parse_of_cut_none {content : GoString} (h : cutAt sepCRLFCRLF content = none) :
    ParseFastCgiResponse content =
      .ok { status := 502, headers := none, body := [], err := some parseErrMsg } := by
  simp [ParseFastCgiResponse, SplitN_two sepCRLFCRLF_ne, h]

theorem Parse_of_cut_some {content hdr body : GoString}
    (h : cutAt sepCRLFCRLF content = some (hdr, body)) :
    ParseFastCgiResponse content = parseAfterCut hdr body := by
  simp [ParseFastCgiResponse, SplitN_two sepCRLFCRLF_ne, h, index, parseAfterCut]
  rfl

/-- Claim C1: a raw output with no occurrence of CR LF CR LF is answered with the error
"Cannot parse FastCGI Response", status 502, a nil header map and an empty body. -/
theorem C1_no_separator_fails (content : GoString) (h : ¬ sepCRLFCRLF <:+: content) :
    ParseFastCgiResponse content =
      .ok { status := 502, headers := none, body := [], err := some parseErrMsg } :=
  Parse_of_cut_none (cutAt_eq_none.mpr h)

theorem parseAfterCut_eq (hdr body : GoString) :
    parseAfterCut hdr body =
      match statusOfLine (firstPiece sepCRLF hdr) with
      | .ok st => .ok { status := st, headers := some (headerLoop [] (Split hdr sepCRLF)),
                        body := body, err := none }
      | .error e => .error e := by
  obtain ⟨tl, htl⟩ := Split_head sepCRLF_ne hdr
  simp only [parseAfterCut, htl, index, statusOfLine]
  simp only [List.get?_cons_zero, bind, Except.bind, pure, Except.pure]
  split <;> rename_i hp
  · cases (SplitN (firstPiece sepCRLF hdr) [' '] 3).get? 1 <;> simp
  · rfl

theorem C1_no_separator_fails_witness :
    ¬ sepCRLFCRLF <:+: "Content-Type: text/html\r\n<p>hi</p>".toList ∧
    ParseFastCgiResponse "Content-Type: text/html\r\n<p>hi</p>".toList =
      .ok { status := 502, headers := none, body := [],
            err := some "Cannot parse FastCGI Response".toList } :=
  ⟨by decide, C1_no_separator_fails _ (by decide)⟩

theorem Parse_ok_of_cut {content hdr body : GoString} {r : ParseResult}
    (hc : cutAt sepCRLFCRLF content = some (hdr, body))
    (hr : ParseFastCgiResponse content = .ok r) :
    r.body = body ∧ r.headers = some (headerLoop [] (Split hdr sepCRLF)) ∧ r.err = none ∧
      statusOfLine (firstPiece sepCRLF hdr) = .ok r.status := by
  rw [Parse_of_cut_some hc, parseAfterCut_eq] at hr
  cases hs : statusOfLine (firstPiece sepCRLF hdr) with
  | error e => rw [hs] at hr; cases hr
  | ok st =>
    rw [hs] at hr
    simp only [Except.ok.injEq] at hr
    subst hr
    exact ⟨rfl, rfl, rfl, rfl⟩

theorem no_earlier_occurrence {sep s a : GoString}
    (hmin : ∀ a2 b2 : GoString, s = a2 ++ sep ++ b2 → a.length ≤ a2.length) :
    ∀ i, i < a.length → ¬ sep <+: s.drop i := by
  intro i hi hp
  obtain ⟨t, ht⟩ := hp
  have hs : s = s.take i ++ sep ++ t := by
    rw [List.append_assoc, ht, List.take_append_drop]
  have := hmin _ _ hs
  rw [List.length_take] at this
  omega

/-- Claim C2: when the raw output contains CR LF CR LF and the parser returns a result, the
input is `h ++ "\r\n\r\n" ++ body` for the returned body, no occurrence of the separator
starts before position `|h|`, and the header map is computed from `h` alone. -/
theorem C2_body_after_first_separator (content : GoString) (r : ParseResult)
    (hsep : sepCRLFCRLF <:+: content) (hr : ParseFastCgiResponse content = .ok r) :
    ∃ h : GoString, content = h ++ sepCRLFCRLF ++ r.body ∧
      (∀ i, i < h.length → ¬ sepCRLFCRLF <+: content.drop i) ∧
      r.headers = some (headerLoop [] (Split h sepCRLF)) := by
  cases hc : cutAt sepCRLFCRLF content with
  | none => exact absurd hsep (cutAt_eq_none.mp hc)
  | some p =>
    obtain ⟨hdr, body⟩ := p
    obtain ⟨hb, hh, _, _⟩ := Parse_ok_of_cut hc hr
    refine ⟨hdr, ?_, no_earlier_occurrence (cutAt_minimal hc), hh⟩
    rw [hb]
    exact cutAt_eq_append hc

theorem C2_body_after_first_separator_witness :
    sepCRLFCRLF <:+: "X-A: 1\r\n\r\nab\r\n\r\ncd".toList ∧
    ParseFastCgiResponse "X-A: 1\r\n\r\nab\r\n\r\ncd".toList =
      .ok { status := 200, headers := some [("X-A".toList, "1".toList)],
            body := "ab\r\n\r\ncd".toList, err := none } ∧
    ∃ h : GoString, "X-A: 1\r\n\r\nab\r\n\r\ncd".toList =
        h ++ sepCRLFCRLF ++ "ab\r\n\r\ncd".toList ∧
      (∀ i, i < h.length → ¬ sepCRLFCRLF <+: ("X-A: 1\r\n\r\nab\r\n\r\ncd".toList).drop i) ∧
      some [("X-A".toList, "1".toList)] = some (headerLoop [] (Split h sepCRLF)) :=
  ⟨by decide, by decide,
   C2_body_after_first_separator "X-A: 1\r\n\r\nab\r\n\r\ncd".toList
     { status := 200, headers := some [("X-A".toList, "1".toList)],
       body := "ab\r\n\r\ncd".toList, err := none } (by decide) (by decide)⟩

/-- Claim C3 (refuted by the code): the parser panics on a status line without a space,
where element 1 of the space-split line is out of range. -/
theorem C3_status_without_space_panics :
    ParseFastCgiResponse "Status:404\r\n\r\n".toList = .error "index out of range" ∧
    ParseFastCgiResponse "Status:\r\n\r\n".toList = .error "index out of range" ∧
    ParseFastCgiResponse "Status:\t404\r\n\r\nNope".toList =
      .error "index out of range" := by
  decide

/-! ## Splitting on a single character -/

theorem cutAt_single (c : Char) :
    ∀ s : GoString, cutAt [c] s =
      if c ∈ s then some (s.takeWhile (· != c), (s.dropWhile (· != c)).tail) else none := by
  intro s
  induction s with
  | nil => simp [cutAt, List.isPrefixOf]
  | cons d ds ih =>
    by_cases hcd : d = c
    · subst hcd
      simp [cutAt, List.isPrefixOf]
    · have hcd2 : ¬ c = d := fun h => hcd h.symm
      simp only [cutAt, List.isPrefixOf, ih]
      by_cases hmem : c ∈ ds
      · simp [hcd, hcd2, hmem]
      · simp [hcd, hcd2, hmem]

theorem takeWhile_ne_of_not_mem {c : Char} :
    ∀ {s : GoString}, c ∉ s → s.takeWhile (· != c) = s := by
  intro s
  induction s with
  | nil => simp
  | cons d ds ih =>
    intro h
    simp only [List.mem_cons, not_or] at h
    have hd : d ≠ c := fun e => h.1 e.symm
    simp [List.takeWhile_cons, hd, ih h.2]

theorem index_one_splitLoop_single (c : Char) (k : Nat) (s : GoString) :
    index (splitLoop [c] (k + 2) s) 1 =
      if c ∈ s then .ok ((s.dropWhile (· != c)).tail.takeWhile (· != c))
      else .error "index out of range" := by
  simp only [splitLoop, cutAt_single]
  by_cases hmem : c ∈ s
  · simp only [hmem, if_true]
    by_cases hmem2 : c ∈ (s.dropWhile (· != c)).tail
    · simp [hmem2, index]
    · simp [hmem2, index, takeWhile_ne_of_not_mem hmem2]
  · simp [hmem, index]

theorem SplitN_three {sep : GoString} (hsep : sep ≠ []) (s : GoString) (hlen : 2 ≤ s.length) :
    SplitN s sep 3 = splitLoop sep 2 s := by
  have h3 : ¬ (s.length + 1 < 3) := by omega
  have e : (3 : Int).toNat = 3 := rfl
  simp [SplitN, hsep, e, h3]

theorem index_one_SplitN_three (c : Char) (s : GoString) (hlen : 2 ≤ s.length) :
    index (SplitN s [c] 3) 1 =
      if c ∈ s then .ok ((s.dropWhile (· != c)).tail.takeWhile (· != c))
      else .error "index out of range" := by
  rw [SplitN_three (by simp) s hlen]
  exact index_one_splitLoop_single c 0 s

theorem SplitN_two_single (c : Char) (s : GoString) :
    SplitN s [c] 2 =
      if c ∈ s then [s.takeWhile (· != c), (s.dropWhile (· != c)).tail] else [s] := by
  rw [SplitN_two (by simp), cutAt_single]
  by_cases hmem : c ∈ s <;> simp [hmem]

/-! ## The first header line -/

theorem cutAt_append {sep : GoString} (t : GoString) :
    ∀ {s a b : GoString}, cutAt sep s = some (a, b) → cutAt sep (s ++ t) = some (a, b ++ t) := by
  intro s
  induction s with
  | nil =>
    intro a b h
    simp only [cutAt] at h
    split at h
    · rename_i hp
      have hs : sep = [] := by simpa using hp
      simp only [Option.some.injEq, Prod.mk.injEq] at h
      obtain ⟨rfl, rfl⟩ := h
      subst hs
      cases t <;> simp [cutAt]
    · cases h
  | cons c cs ih =>
    intro a b h
    have hlen : sep.length ≤ (c :: cs).length := by
      have := cutAt_eq_append h
      rw [this]
      simp only [List.length_append]
      omega
    simp only [cutAt] at h
    simp only [List.cons_append, cutAt, List.append_eq]
    split at h
    · rename_i hp
      simp only [Option.some.injEq, Prod.mk.injEq] at h
      obtain ⟨rfl, rfl⟩ := h
      have hp2 : sep <+: c :: cs := List.isPrefixOf_iff_prefix.mp hp
      have hp3 : sep.isPrefixOf (c :: (cs ++ t)) = true :=
        List.isPrefixOf_iff_prefix.mpr (hp2.trans ⟨t, by simp⟩)
      simp only [hp3, if_true, Option.some.injEq, Prod.mk.injEq, true_and]
      rw [← List.cons_append, List.drop_append_of_le_length hlen]
    · rename_i hp
      split at h
      · cases h
      · rename_i a0 b0 hrec
        simp only [Option.some.injEq, Prod.mk.injEq] at h
        obtain ⟨rfl, rfl⟩ := h
        have hp3 : ¬ sep.isPrefixOf (c :: (cs ++ t)) = true := by
          intro hq
          apply hp
          have hq2 : sep <+: (c :: cs) ++ t := by
            simpa using List.isPrefixOf_iff_prefix.mp hq
          exact List.isPrefixOf_iff_prefix.mpr
            (List.prefix_of_prefix_length_le hq2 (List.prefix_append _ _) hlen)
        simp [hp3, ih hrec]

theorem cutAt_crlf_of_no_infix (rest : GoString) :
    ∀ {line : GoString}, ¬ sepCRLF <:+: line →
      cutAt sepCRLF (line ++ sepCRLF ++ rest) = some (line, rest) := by
  intro line
  induction line with
  | nil =>
    intro _
    simp [sepCRLF, cutAt, List.isPrefixOf]
  | cons c cs ih =>
    intro h
    have hcs : ¬ sepCRLF <:+: cs := fun hh => h (List.infix_cons hh)
    have hp : ¬ sepCRLF <+: c :: cs := fun hh => h hh.isInfix
    have hnp : (sepCRLF.isPrefixOf (c :: cs ++ sepCRLF ++ rest)) = false := by
      cases cs with
      | nil =>
        simp [sepCRLF, List.isPrefixOf]
      | cons d ds =>
        by_contra hq
        apply hp
        simp only [sepCRLF, List.cons_append, List.isPrefixOf, Bool.and_true,
          Bool.not_eq_false, Bool.and_eq_true, beq_iff_eq] at hq
        obtain ⟨h1, h2⟩ := hq
        subst h1 h2
        exact ⟨ds, rfl⟩
    have hrec := ih hcs
    simp only [List.cons_append, List.append_assoc] at hnp hrec ⊢
    simp [cutAt, hnp, hrec]

theorem firstPiece_of_cuts {content hdr body line rest : GoString}
    (hc : cutAt sepCRLFCRLF content = some (hdr, body))
    (hl : cutAt sepCRLF content = some (line, rest)) :
    firstPiece sepCRLF hdr = line := by
  have e := cutAt_eq_append hc
  unfold firstPiece
  cases hh : cutAt sepCRLF hdr with
  | none =>
    have hno := cutAt_eq_none.mp hh
    have := cutAt_crlf_of_no_infix (sepCRLF ++ body) hno
    have e2 : hdr ++ sepCRLF ++ (sepCRLF ++ body) = content := by
      rw [e]; simp [sepCRLF, sepCRLFCRLF]
    rw [e2, hl] at this
    simp only [Option.some.injEq, Prod.mk.injEq] at this
    exact this.1.symm
  | some p =>
    obtain ⟨a, b⟩ := p
    have := cutAt_append (sepCRLFCRLF ++ body) hh
    rw [← List.append_assoc, ← e, hl] at this
    simp only [Option.some.injEq, Prod.mk.injEq] at this
    exact this.1.symm

/-- The status line analysis in closed form: a line that does not start with `Status:` gives
200; otherwise the line must contain a space, and the code is read from the text between
the first space and the next one. -/
theorem statusOfLine_eq (line : GoString) :
    statusOfLine line =
      if statusPrefix <+: line then
        if ' ' ∈ line then .ok (Atoi (secondToken line)).1
        else .error "index out of range"
      else .ok 200 := by
  unfold statusOfLine HasPrefix
  by_cases hp : statusPrefix <+: line
  · have hlen : 2 ≤ line.length := by
      have := hp.length_le
      simp [statusPrefix] at this
      omega
    rw [if_pos (List.isPrefixOf_iff_prefix.mpr hp), if_pos hp,
      index_one_SplitN_three ' ' line hlen]
    by_cases hs : ' ' ∈ line
    · simp [hs, secondToken]
    · simp [hs]
  · have : ¬ statusPrefix.isPrefixOf line = true := fun h => hp (List.isPrefixOf_iff_prefix.mp h)
    simp [this, hp]

/-- The parser on an input with a separator, in terms of the first line of the input. -/
theorem Parse_of_first_line {content line rest : GoString}
    (hsep : sepCRLFCRLF <:+: content) (hcontent : content = line ++ sepCRLF ++ rest)
    (hline : ¬ sepCRLF <:+: line) :
    ∃ hdr body, cutAt sepCRLFCRLF content = some (hdr, body) ∧
      ParseFastCgiResponse content =
        match statusOfLine line with
        | .ok st => .ok { status := st, headers := some (headerLoop [] (Split hdr sepCRLF)),
                          body := body, err := none }
        | .error e => .error e := by
  cases hc : cutAt sepCRLFCRLF content with
  | none => exact absurd hsep (cutAt_eq_none.mp hc)
  | some p =>
    obtain ⟨hdr, body⟩ := p
    refine ⟨hdr, body, rfl, ?_⟩
    have hl : cutAt sepCRLF content = some (line, rest) := by
      rw [hcontent]; exact cutAt_crlf_of_no_infix rest hline
    rw [Parse_of_cut_some hc, parseAfterCut_eq, firstPiece_of_cuts hc hl]

/-! ## `strconv.Atoi` on decimal tokens and on malformed tokens -/

theorem le_foldl_digits (ds : GoString) :
    ∀ n : Nat, n ≤ ds.foldl (fun a c => a * 10 + (c.toNat - '0'.toNat)) n := by
  induction ds with
  | nil => intro n; simp
  | cons c cs ih =>
    intro n
    simp only [List.foldl_cons]
    have := ih (n * 10 + (c.toNat - '0'.toNat))
    omega

theorem parseUintLoop_digits (ds : GoString) :
    ∀ n : Nat, (∀ c ∈ ds, isDigit c = true) →
      ds.foldl (fun a c => a * 10 + (c.toNat - '0'.toNat)) n ≤ maxUint64 →
      parseUintLoop ds n = (ds.foldl (fun a c => a * 10 + (c.toNat - '0'.toNat)) n, none) := by
  induction ds with
  | nil => intro n _ _; simp [parseUintLoop]
  | cons c cs ih =>
    intro n hd hle
    have hc : '0' ≤ c ∧ c ≤ '9' := by
      have := hd c (List.mem_cons_self _ _)
      simpa [isDigit] using this
    simp only [List.foldl_cons] at hle ⊢
    have hge := le_foldl_digits cs (n * 10 + (c.toNat - '0'.toNat))
    have h1 : n * 10 + (c.toNat - '0'.toNat) ≤ maxUint64 := le_trans hge hle
    have hm : maxUint64 = 18446744073709551615 := by norm_num [maxUint64]
    have h2 : ¬ (n ≥ maxUint64 / 10 + 1) := by
      rw [hm] at h1 ⊢
      omega
    have h3 : ¬ (n * 10 + (c.toNat - '0'.toNat) > maxUint64) := by omega
    simp only [parseUintLoop, hc, and_self, if_true, h2, if_false, h3]
    exact ih _ (fun x hx => hd x (List.mem_cons_of_mem _ hx)) hle

theorem parseUintLoop_syntax (p : GoString) (x : Char) (q : GoString) (hx : isDigit x = false) :
    ∀ n : Nat, (∀ c ∈ p, isDigit c = true) →
      p.foldl (fun a c => a * 10 + (c.toNat - '0'.toNat)) n ≤ maxUint64 →
      parseUintLoop (p ++ x :: q) n = (0, some .errSyntax) := by
  induction p with
  | nil =>
    intro n _ _
    have hx2 : ¬ ('0' ≤ x ∧ x ≤ '9') := by simpa [isDigit] using hx
    simp [parseUintLoop, hx2]
  | cons c cs ih =>
    intro n hd hle
    have hc : '0' ≤ c ∧ c ≤ '9' := by
      have := hd c (List.mem_cons_self _ _)
      simpa [isDigit] using this
    simp only [List.foldl_cons] at hle
    have hge := le_foldl_digits cs (n * 10 + (c.toNat - '0'.toNat))
    have h1 : n * 10 + (c.toNat - '0'.toNat) ≤ maxUint64 := le_trans hge hle
    have hm : maxUint64 = 18446744073709551615 := by norm_num [maxUint64]
    have h2 : ¬ (n ≥ maxUint64 / 10 + 1) := by
      rw [hm] at h1 ⊢
      omega
    have h3 : ¬ (n * 10 + (c.toNat - '0'.toNat) > maxUint64) := by omega
    simp only [List.cons_append, parseUintLoop, hc, and_self, if_true, h2, if_false, h3]
    exact ih _ (fun y hy => hd y (List.mem_cons_of_mem _ hy)) hle

theorem ParseInt_cons (c : Char) (cs : GoString) :
    ParseInt (c :: cs) =
      match ParseUint (unsignedPart (c :: cs)) with
      | (_, some .errSyntax) => (0, some .errSyntax)
      | (un, _) =>
        if ¬ (c = '-') ∧ un ≥ 2 ^ 63 then ((2 ^ 63 : Nat) - 1, some .errRange)
        else if c = '-' ∧ un > 2 ^ 63 then (-((2 ^ 63 : Nat) : Int), some .errRange)
        else (if c = '-' then -(un : Int) else (un : Int), none) := by
  simp only [ParseInt, unsignedPart, intSize]
  generalize ParseUint (if c = '+' ∨ c = '-' then cs else c :: cs) = p
  obtain ⟨un, e⟩ := p
  cases e with
  | none => simp
  | some e => cases e <;> simp

theorem Atoi_decimal {tok : GoString} {n : Int} (h : decimalValue? tok = some n)
    (hlo : -(2 ^ 63 : Int) ≤ n) (hhi : n < 2 ^ 63) : Atoi tok = (n, none) := by
  unfold decimalValue? at h
  split at h
  · rename_i hd
    obtain ⟨hne, hall⟩ := hd
    simp only [Option.some.injEq] at h
    cases tok with
    | nil => simp [unsignedPart] at hne
    | cons c cs =>
      have hdig : ∀ x ∈ unsignedPart (c :: cs), isDigit x = true := by
        simpa [List.all_eq_true] using hall
      have hm : maxUint64 = 18446744073709551615 := by norm_num [maxUint64]
      have hv : digitsValue (unsignedPart (c :: cs)) ≤ maxUint64 := by
        rw [hm]
        split at h <;> omega
      have hpu : ParseUint (unsignedPart (c :: cs)) =
          (digitsValue (unsignedPart (c :: cs)), none) := by
        simp only [ParseUint, hne, if_false]
        exact parseUintLoop_digits _ 0 hdig hv
      simp only [Atoi, ParseInt_cons, hpu]
      simp only [List.head?_cons, Option.some.injEq] at h
      by_cases hneg : c = '-'
      · subst hneg
        simp only [if_true] at h
        have h1 : ¬ (digitsValue (unsignedPart ('-' :: cs)) > 2 ^ 63) := by omega
        simp [h1, h]
        omega
      · simp only [hneg, if_false] at h
        have h1 : ¬ (digitsValue (unsignedPart (c :: cs)) ≥ 2 ^ 63) := by omega
        simp [hneg, h1, h]
        omega
  · cases h

theorem Atoi_syntax {tok : GoString} (h : decimalValue? tok = none)
    (hfit : digitsValue ((unsignedPart tok).takeWhile isDigit) ≤ maxUint64) :
    Atoi tok = (0, some .errSyntax) := by
  cases tok with
  | nil => simp [Atoi, ParseInt]
  | cons c cs =>
    have hpu : ParseUint (unsignedPart (c :: cs)) = (0, some .errSyntax) := by
      unfold ParseUint
      by_cases hne : unsignedPart (c :: cs) = []
      · simp [hne]
      · simp only [hne, if_false]
        have hnall : ¬ ((unsignedPart (c :: cs)).all isDigit = true) := by
          intro hall
          simp [decimalValue?, hne, hall] at h
        have hsplit := List.takeWhile_append_dropWhile isDigit (unsignedPart (c :: cs))
        cases hdw : (unsignedPart (c :: cs)).dropWhile isDigit with
        | nil =>
          exfalso
          apply hnall
          rw [List.all_eq_true]
          intro x hx
          rw [hdw, List.append_nil] at hsplit
          rw [← hsplit] at hx
          exact List.mem_takeWhile_imp hx
        | cons x q =>
          have hx : isDigit x = false := by
            have := List.head_dropWhile_not isDigit (unsignedPart (c :: cs))
              (by rw [hdw]; simp)
            simpa [hdw] using this
          rw [hdw] at hsplit
          rw [← hsplit]
          exact parseUintLoop_syntax _ x q hx 0
            (fun y hy => List.mem_takeWhile_imp hy) hfit
    simp only [Atoi, ParseInt_cons, hpu]

theorem parseUintLoop_range (suffix : GoString) (p : GoString) :
    ∀ n : Nat, (∀ c ∈ p, isDigit c = true) → n ≤ maxUint64 →
      maxUint64 < p.foldl (fun a c => a * 10 + (c.toNat - '0'.toNat)) n →
      parseUintLoop (p ++ suffix) n = (maxUint64, some .errRange) := by
  induction p with
  | nil =>
    intro n _ hn hgt
    simp only [List.foldl_nil] at hgt
    omega
  | cons c cs ih =>
    intro n hd hn hgt
    have hc : '0' ≤ c ∧ c ≤ '9' := by
      have := hd c (List.mem_cons_self _ _)
      simpa [isDigit] using this
    simp only [List.foldl_cons] at hgt
    simp only [List.cons_append, parseUintLoop, hc, and_self, if_true]
    by_cases h2 : n ≥ maxUint64 / 10 + 1
    · simp [h2]
    · simp only [h2, if_false]
      by_cases h3 : n * 10 + (c.toNat - '0'.toNat) > maxUint64
      · rw [if_pos h3]
      · rw [if_neg h3]
        exact ih _ (fun y hy => hd y (List.mem_cons_of_mem _ hy)) (by omega) hgt

/-- A token that is not a decimal integer of the 64-bit range: the result of `Atoi` is 0
when a syntax error is met before the digits read leave the unsigned 64-bit range, and
the nearest bound of the signed range otherwise. -/
theorem Atoi_not_representable {tok : GoString}
    (h : ∀ n : Int, decimalValue? tok = some n → ¬ (-(2 ^ 63 : Int) ≤ n ∧ n < 2 ^ 63)) :
    (Atoi tok).1 =
      if decimalValue? tok = none ∧
          digitsValue ((unsignedPart tok).takeWhile isDigit) ≤ maxUint64 then 0
      else if tok.head? = some '-' then -(2 ^ 63 : Int) else 2 ^ 63 - 1 := by
  have hm : maxUint64 = 18446744073709551615 := by norm_num [maxUint64]
  by_cases hcase : decimalValue? tok = none ∧
      digitsValue ((unsignedPart tok).takeWhile isDigit) ≤ maxUint64
  · rw [if_pos hcase, Atoi_syntax hcase.1 hcase.2]
  · rw [if_neg hcase]
    cases tok with
    | nil => simp [decimalValue?, unsignedPart, digitsValue] at hcase
    | cons c cs =>
      -- in every remaining case `ParseUint` reports a value of at least `2 ^ 63`
      -- (above it for a negative token) without a syntax error
      have key : ∃ un e, ParseUint (unsignedPart (c :: cs)) = (un, e) ∧
          e ≠ some .errSyntax ∧ (c ≠ '-' → 9223372036854775808 ≤ un) ∧
          (c = '-' → 9223372036854775808 < un) := by
        cases hd : decimalValue? (c :: cs) with
        | some n =>
          have hr := h n hd
          unfold decimalValue? at hd
          split at hd
          · rename_i hh
            obtain ⟨hne, hall⟩ := hh
            have hdig : ∀ x ∈ unsignedPart (c :: cs), isDigit x = true := by
              simpa [List.all_eq_true] using hall
            simp only [Option.some.injEq, List.head?_cons] at hd
            by_cases hv : digitsValue (unsignedPart (c :: cs)) ≤ maxUint64
            · refine ⟨digitsValue (unsignedPart (c :: cs)), none, ?_, by simp, ?_, ?_⟩
              · simp only [ParseUint, hne, if_false]
                exact parseUintLoop_digits _ 0 hdig hv
              · intro hc
                have hc2 : ¬ (c = '-') := hc
                simp only [hc2, if_false] at hd
                omega
              · intro hc
                simp only [hc, if_true] at hd
                subst hc
                omega
            · refine ⟨maxUint64, some .errRange, ?_, by simp, ?_, ?_⟩
              · simp only [ParseUint, hne, if_false]
                have := parseUintLoop_range [] (unsignedPart (c :: cs)) 0 hdig (by omega)
                  (by unfold digitsValue at hv; omega)
                simpa using this
              · intro _; rw [hm]; norm_num
              · intro _; rw [hm]; norm_num
          · cases hd
        | none =>
          have hnf : ¬ digitsValue ((unsignedPart (c :: cs)).takeWhile isDigit) ≤ maxUint64 :=
            fun hf => hcase ⟨hd, hf⟩
          refine ⟨maxUint64, some .errRange, ?_, by simp, ?_, ?_⟩
          · have hne : unsignedPart (c :: cs) ≠ [] := by
              intro he
              apply hnf
              simp [he, digitsValue]
            simp only [ParseUint, hne, if_false]
            have := parseUintLoop_range ((unsignedPart (c :: cs)).dropWhile isDigit)
              ((unsignedPart (c :: cs)).takeWhile isDigit) 0
              (fun y hy => List.mem_takeWhile_imp hy) (by omega)
              (by unfold digitsValue at hnf; omega)
            rwa [List.takeWhile_append_dropWhile] at this
          · intro _; rw [hm]; norm_num
          · intro _; rw [hm]; norm_num
      obtain ⟨un, e, hpu, hes, hpos, hneg⟩ := key
      simp only [Atoi, ParseInt_cons, hpu, List.head?_cons, Option.some.injEq]
      by_cases hc : c = '-'
      · have h1 := hneg hc
        cases e with
        | none => simp [hc, h1]
        | some e =>
          cases e with
          | errSyntax => exact absurd rfl hes
          | errRange => simp [hc, h1]
      · have h1 := hpos hc
        cases e with
        | none => simp [hc, h1]
        | some e =>
          cases e with
          | errSyntax => exact absurd rfl hes
          | errRange => simp [hc, h1]

/-! ## The status code -/

theorem Parse_status_line {content line rest : GoString}
    (hsep : sepCRLFCRLF <:+: content) (hcontent : content = line ++ sepCRLF ++ rest)
    (hline : ¬ sepCRLF <:+: line) (hstatus : statusPrefix <+: line) (hspace : ' ' ∈ line) :
    ∃ r, ParseFastCgiResponse content = .ok r ∧ r.err = none ∧
      r.status = (Atoi (secondToken line)).1 := by
  obtain ⟨hdr, body, _, hp⟩ := Parse_of_first_line hsep hcontent hline
  rw [statusOfLine_eq, if_pos hstatus, if_pos hspace] at hp
  exact ⟨_, hp, rfl, rfl⟩

/-- Claim C4 (amended): when the raw output contains the separator, its first line begins
with `Status:` and contains a space, and the text between the first space and the next
space (or the end of the line) is a decimal integer `n` of the 64-bit range, the parser
succeeds with status `n`. -/
theorem C4_status_code_after_single_space (content line rest : GoString) (n : Int)
    (hsep : sepCRLFCRLF <:+: content) (hcontent : content = line ++ sepCRLF ++ rest)
    (hline : ¬ sepCRLF <:+: line) (hstatus : statusPrefix <+: line) (hspace : ' ' ∈ line)
    (hcode : decimalValue? (secondToken line) = some n)
    (hlo : -(2 ^ 63 : Int) ≤ n) (hhi : n < 2 ^ 63) :
    ∃ r, ParseFastCgiResponse content = .ok r ∧ r.err = none ∧ r.status = n := by
  obtain ⟨r, hr, he, hs⟩ := Parse_status_line hsep hcontent hline hstatus hspace
  refine ⟨r, hr, he, ?_⟩
  rw [hs, Atoi_decimal hcode hlo hhi]

theorem C4_status_code_after_single_space_witness :
    (sepCRLFCRLF <:+: "Status: 404 Not Found\r\nContent-Type: text/plain\r\n\r\nNope".toList ∧
     "Status: 404 Not Found\r\nContent-Type: text/plain\r\n\r\nNope".toList =
       "Status: 404 Not Found".toList ++ sepCRLF ++
         "Content-Type: text/plain\r\n\r\nNope".toList ∧
     ¬ sepCRLF <:+: "Status: 404 Not Found".toList ∧
     statusPrefix <+: "Status: 404 Not Found".toList ∧
     ' ' ∈ "Status: 404 Not Found".toList ∧
     decimalValue? (secondToken "Status: 404 Not Found".toList) = some 404) ∧
    (∃ r, ParseFastCgiResponse
        "Status: 404 Not Found\r\nContent-Type: text/plain\r\n\r\nNope".toList = .ok r ∧
      r.err = none ∧ r.status = 404) ∧
    ParseFastCgiResponse "Status: 404 Not Found\r\nContent-Type: text/plain\r\n\r\nNope".toList =
      .ok { status := 404, headers := some [("Content-Type".toList, "text/plain".toList)],
            body := "Nope".toList, err := none } :=
  ⟨⟨by decide, by decide, by decide, by decide, by decide, by decide⟩,
   C4_status_code_after_single_space
     "Status: 404 Not Found\r\nContent-Type: text/plain\r\n\r\nNope".toList
     "Status: 404 Not Found".toList "Content-Type: text/plain\r\n\r\nNope".toList 404
     (by decide) (by decide) (by decide) (by decide) (by decide) (by decide)
     (by decide) (by decide),
   by decide⟩

/-- Claim C4 as stated fails: with two spaces after `Status:` the second
whitespace-delimited token of the first line is the decimal integer 404, and the parser
returns status 0. -/
theorem C4_several_spaces_counterexample :
    sepCRLFCRLF <:+: "Status:  404 Not Found\r\n\r\nNope".toList ∧
    statusPrefix <+: "Status:  404 Not Found".toList ∧
    (whitespaceTokens "Status:  404 Not Found".toList).get? 1 = some "404".toList ∧
    decimalValue? "404".toList = some 404 ∧
    ParseFastCgiResponse "Status:  404 Not Found\r\n\r\nNope".toList =
      .ok { status := 0, headers := some [], body := "Nope".toList, err := none } := by
  decide

/-- Claim C5 (amended): when the raw output contains the separator, its first line begins
with `Status:` and contains a space, and the text between the first space and the next
space is not a decimal integer of the 64-bit range, the parser succeeds without error;
the status is 0 when the token is not a decimal integer and its leading digits stay
within the unsigned 64-bit range, and otherwise the nearest bound of the signed 64-bit
range. -/
theorem C5_malformed_status_code (content line rest : GoString)
    (hsep : sepCRLFCRLF <:+: content) (hcontent : content = line ++ sepCRLF ++ rest)
    (hline : ¬ sepCRLF <:+: line) (hstatus : statusPrefix <+: line) (hspace : ' ' ∈ line)
    (hcode : ∀ n : Int, decimalValue? (secondToken line) = some n →
      ¬ (-(2 ^ 63 : Int) ≤ n ∧ n < 2 ^ 63)) :
    ∃ r, ParseFastCgiResponse content = .ok r ∧ r.err = none ∧
      r.status =
        if decimalValue? (secondToken line) = none ∧
            digitsValue ((unsignedPart (secondToken line)).takeWhile isDigit) ≤ maxUint64
        then 0
        else if (secondToken line).head? = some '-' then -(2 ^ 63 : Int) else 2 ^ 63 - 1 := by
  obtain ⟨r, hr, he, hs⟩ := Parse_status_line hsep hcontent hline hstatus hspace
  refine ⟨r, hr, he, ?_⟩
  rw [hs, Atoi_not_representable hcode]

theorem C5_malformed_status_code_witness :
    (sepCRLFCRLF <:+: "Status: abc\r\nX: y\r\n\r\nbody".toList ∧
     "Status: abc\r\nX: y\r\n\r\nbody".toList =
       "Status: abc".toList ++ sepCRLF ++ "X: y\r\n\r\nbody".toList ∧
     ¬ sepCRLF <:+: "Status: abc".toList ∧
     statusPrefix <+: "Status: abc".toList ∧
     ' ' ∈ "Status: abc".toList ∧
     decimalValue? (secondToken "Status: abc".toList) = none) ∧
    (∃ r, ParseFastCgiResponse "Status: abc\r\nX: y\r\n\r\nbody".toList = .ok r ∧
      r.err = none ∧
      r.status =
        if decimalValue? (secondToken "Status: abc".toList) = none ∧
            digitsValue ((unsignedPart (secondToken "Status: abc".toList)).takeWhile isDigit)
              ≤ maxUint64
        then 0
        else if (secondToken "Status: abc".toList).head? = some '-' then -(2 ^ 63 : Int)
        else 2 ^ 63 - 1) ∧
    ParseFastCgiResponse "Status: abc\r\nX: y\r\n\r\nbody".toList =
      .ok { status := 0, headers := some [("X".toList, "y".toList)],
            body := "body".toList, err := none } :=
  ⟨⟨by decide, by decide, by decide, by decide, by decide, by decide⟩,
   C5_malformed_status_code "Status: abc\r\nX: y\r\n\r\nbody".toList
     "Status: abc".toList "X: y\r\n\r\nbody".toList
     (by decide) (by decide) (by decide) (by decide) (by decide)
     (fun n h => by
       rw [show decimalValue? (secondToken "Status: abc".toList) = none by decide] at h
       cases h),
   by decide⟩

/-- Claim C5 as stated fails: a digit string too large for the integer type gives the
largest 64-bit integer as status, not 0. -/
theorem C5_too_large_counterexample :
    sepCRLFCRLF <:+: "Status: 99999999999999999999\r\n\r\n".toList ∧
    statusPrefix <+: "Status: 99999999999999999999".toList ∧
    (whitespaceTokens "Status: 99999999999999999999".toList).get? 1 =
      some "99999999999999999999".toList ∧
    decimalValue? "99999999999999999999".toList = some 99999999999999999999 ∧
    ParseFastCgiResponse "Status: 99999999999999999999\r\n\r\n".toList =
      .ok { status := 9223372036854775807, headers := some [], body := [], err := none } := by
  decide

/-- Claim C6: when the raw output contains the separator and its first line does not begin
with `Status:`, the parser succeeds with status 200. -/
theorem C6_default_status_200 (content line rest : GoString)
    (hsep : sepCRLFCRLF <:+: content) (hcontent : content = line ++ sepCRLF ++ rest)
    (hline : ¬ sepCRLF <:+: line) (hstatus : ¬ statusPrefix <+: line) :
    ∃ r, ParseFastCgiResponse content = .ok r ∧ r.err = none ∧ r.status = 200 := by
  obtain ⟨hdr, body, _, hp⟩ := Parse_of_first_line hsep hcontent hline
  rw [statusOfLine_eq, if_neg hstatus] at hp
  exact ⟨_, hp, rfl, rfl⟩

theorem C6_default_status_200_witness :
    (sepCRLFCRLF <:+: "Content-Type: text/html\r\n\r\n<p>hi</p>".toList ∧
     "Content-Type: text/html\r\n\r\n<p>hi</p>".toList =
       "Content-Type: text/html".toList ++ sepCRLF ++ "\r\n<p>hi</p>".toList ∧
     ¬ sepCRLF <:+: "Content-Type: text/html".toList ∧
     ¬ statusPrefix <+: "Content-Type: text/html".toList) ∧
    (∃ r, ParseFastCgiResponse "Content-Type: text/html\r\n\r\n<p>hi</p>".toList = .ok r ∧
      r.err = none ∧ r.status = 200) ∧
    ParseFastCgiResponse "Content-Type: text/html\r\n\r\n<p>hi</p>".toList =
      .ok { status := 200, headers := some [("Content-Type".toList, "text/html".toList)],
            body := "<p>hi</p>".toList, err := none } ∧
    ParseFastCgiResponse "X-A: 1\r\nStatus: 500 Oops\r\n\r\n".toList =
      .ok { status := 200, headers := some [("X-A".toList, "1".toList)],
            body := [], err := none } :=
  ⟨⟨by decide, by decide, by decide, by decide⟩,
   C6_default_status_200 "Content-Type: text/html\r\n\r\n<p>hi</p>".toList
     "Content-Type: text/html".toList "\r\n<p>hi</p>".toList
     (by decide) (by decide) (by decide) (by decide),
   by decide, by decide⟩

/-! ## The header mapping -/

theorem lookup_cons_eq (k2 k0 v0 : GoString) (rest : GoMap) :
    List.lookup k2 ((k0, v0) :: rest) = if k2 = k0 then some v0 else List.lookup k2 rest := by
  by_cases h : k2 = k0
  · subst h
    simp [List.lookup]
  · have hb : (k2 == k0) = false := by simpa using h
    simp [List.lookup, hb, h]

theorem get_set (m : GoMap) (k v k2 : GoString) :
    (m.set k v).get k2 = if k2 = k then some v else m.get k2 := by
  induction m with
  | nil =>
    simp only [GoMap.set, GoMap.get, lookup_cons_eq]
  | cons e rest ih =>
    obtain ⟨k0, v0⟩ := e
    simp only [GoMap.get] at ih
    by_cases h0 : k0 = k
    · subst h0
      simp only [GoMap.set, GoMap.get, lookup_cons_eq, if_true]
      by_cases h : k2 = k0 <;> simp [h]
    · simp only [GoMap.set, GoMap.get, lookup_cons_eq, if_neg h0, ih]
      by_cases h : k2 = k
      · subst h
        have h1 : ¬ (k2 = k0) := fun e => h0 e.symm
        simp [h1]
      · simp [h]

theorem refHeaders_nil (k : GoString) : refHeaders [] k = none := by
  simp [refHeaders]

theorem refHeaders_cons (line : GoString) (rest : List GoString) (k : GoString) :
    refHeaders (line :: rest) k =
      (refHeaders rest k).or
        (if k ≠ statusKey ∧ ':' ∈ line ∧ line.takeWhile (· != ':') = k then
          some (TrimSpace (line.dropWhile (· != ':')).tail)
         else none) := by
  unfold refHeaders
  by_cases hk : k = statusKey
  · simp [hk]
  · simp only [hk, if_false, List.reverse_cons, List.find?_append, Option.map_or', ne_eq,
      not_false_eq_true, true_and]
    congr 1
    by_cases hl : ':' ∈ line ∧ line.takeWhile (· != ':') = k
    · simp [List.find?, hl.1, hl.2]
    · rw [if_neg hl]
      have : (decide (':' ∈ line) && decide (line.takeWhile (· != ':') = k)) = false := by
        simpa using hl
      simp [List.find?, this]

theorem headerLoop_get (lines : List GoString) :
    ∀ (m : GoMap) (k : GoString),
      (headerLoop m lines).get k = (refHeaders lines k).or (m.get k) := by
  induction lines with
  | nil => intro m k; simp [headerLoop, refHeaders_nil]
  | cons line rest ih =>
    intro m k
    rw [refHeaders_cons]
    simp only [headerLoop, SplitN_two_single]
    by_cases hc : ':' ∈ line
    · simp only [hc, if_true, true_and]
      by_cases hs : line.takeWhile (· != ':') = statusKey
      · rw [if_pos hs, ih]
        have : ¬ (k ≠ statusKey ∧ line.takeWhile (· != ':') = k) := by
          rintro ⟨h1, h2⟩
          exact h1 (h2.symm.trans hs)
        rw [if_neg this]
        simp
      · rw [if_neg hs, ih, get_set]
        by_cases hk : k = line.takeWhile (· != ':')
        · have : k ≠ statusKey ∧ line.takeWhile (· != ':') = k :=
            ⟨fun e => hs (hk.symm.trans e), hk.symm⟩
          rw [if_pos hk, if_pos this]
          cases refHeaders rest k <;> simp
        · have : ¬ (k ≠ statusKey ∧ line.takeWhile (· != ':') = k) :=
            fun h => hk h.2.symm
          rw [if_neg hk, if_neg this]
          simp
    · simp only [hc, if_false, false_and, and_false]
      rw [ih]
      simp

/-- Claim C7: on every raw output the parser accepts, the returned header map agrees at
every name with the reference definition applied to the CRLF-separated lines of the
header block (the text before the first separator). -/
theorem C7_headers_reference (content : GoString) (r : ParseResult)
    (hr : ParseFastCgiResponse content = .ok r) (herr : r.err = none) :
    ∃ (hdr : GoString) (m : GoMap), content = hdr ++ sepCRLFCRLF ++ r.body ∧
      (∀ i, i < hdr.length → ¬ sepCRLFCRLF <+: content.drop i) ∧
      r.headers = some m ∧
      (∀ k, m.get k = refHeaders (Split hdr sepCRLF) k) ∧
      m.get statusKey = none := by
  cases hc : cutAt sepCRLFCRLF content with
  | none =>
    rw [Parse_of_cut_none hc] at hr
    simp only [Except.ok.injEq] at hr
    subst hr
    cases herr
  | some p =>
    obtain ⟨hdr, body⟩ := p
    obtain ⟨hb, hh, _, _⟩ := Parse_ok_of_cut hc hr
    have hget : ∀ k, (headerLoop [] (Split hdr sepCRLF)).get k =
        refHeaders (Split hdr sepCRLF) k := by
      intro k
      rw [headerLoop_get]
      simp [GoMap.get]
    refine ⟨hdr, headerLoop [] (Split hdr sepCRLF), ?_,
      no_earlier_occurrence (cutAt_minimal hc), hh, hget, ?_⟩
    · rw [hb]; exact cutAt_eq_append hc
    · rw [hget]; simp [refHeaders]

theorem C7_headers_reference_witness :
    (ParseFastCgiResponse "a: 1\r\nStatus: 3\r\na:2 \r\nnocolon\r\n\r\nB".toList =
      .ok { status := 200, headers := some [("a".toList, "2".toList)],
            body := "B".toList, err := none }) ∧
    ∃ (hdr : GoString) (m : GoMap),
      "a: 1\r\nStatus: 3\r\na:2 \r\nnocolon\r\n\r\nB".toList = hdr ++ sepCRLFCRLF ++ "B".toList ∧
      (∀ i, i < hdr.length →
        ¬ sepCRLFCRLF <+: ("a: 1\r\nStatus: 3\r\na:2 \r\nnocolon\r\n\r\nB".toList).drop i) ∧
      some [("a".toList, "2".toList)] = some m ∧
      (∀ k, m.get k = refHeaders (Split hdr sepCRLF) k) ∧
      m.get statusKey = none :=
  ⟨by decide,
   C7_headers_reference "a: 1\r\nStatus: 3\r\na:2 \r\nnocolon\r\n\r\nB".toList
     { status := 200, headers := some [("a".toList, "2".toList)],
       body := "B".toList, err := none } (by decide) rfl⟩

/-! ## The argument encoder -/

/-- Claim C9: whenever `buildQueryStr` returns, the returned string ends with
`&requestIdFromClient=` followed by the request id in decimal, whatever the serialization
mode, the argument list and the outcome of the deserialization; it returns on every
request except when the first argument is the nil interface value, where it panics. -/
theorem C9_request_id_suffix (request : Request) (url : URL) (order : RangeOrder) :
    match buildQueryStr request url order with
    | .ok (res, err) =>
        (requestIdField ++ formatDecimal request.requestID) <:+ res ∧
        err = request.deserializeErr
    | .error _ => request.arguments.head? = some Arg.nilValue := by
  unfold buildQueryStr
  by_cases herr : request.deserializeErr = none
  · simp only [herr, if_true]
    cases hargs : request.arguments with
    | nil => simp
    | cons first rest =>
      by_cases hmode : url.parameters.getD serializationKey = Simple
      · cases first <;> simp [hmode]
      · simp [hmode]
  · simp [herr]

/-- Claim C10: in the "simple" mode, when the deserialization succeeds and the first
argument is the string `s`, `buildQueryStr` returns the URL-escaped `s` followed by
`&requestIdFromClient=` and the request id in decimal, with no error. -/
theorem C10_simple_string_argument (request : Request) (url : URL) (order : RangeOrder)
    (s : GoString) (hdeser : request.deserializeErr = none)
    (hmode : url.parameters.getD serializationKey = Simple)
    (harg : request.arguments.head? = some (Arg.str s)) :
    buildQueryStr request url order =
      .ok (QueryEscape s ++ requestIdField ++ formatDecimal request.requestID, none) := by
  unfold buildQueryStr
  cases hargs : request.arguments with
  | nil => rw [hargs] at harg; cases harg
  | cons first rest =>
    rw [hargs] at harg
    simp only [List.head?_cons, Option.some.injEq] at harg
    subst harg
    simp [hdeser, hmode]

theorem C10_simple_string_argument_witness :
    buildQueryStr
        { deserializeErr := none, arguments := [Arg.str "q=test é".toList],
          requestID := 42, attachments := [] }
        { parameters := [("serialization".toList, "simple".toList)] } id =
      .ok (QueryEscape "q=test é".toList ++ requestIdField ++ formatDecimal 42, none) ∧
    QueryEscape "q=test é".toList ++ requestIdField ++ formatDecimal 42 =
      "q%3Dtest+%C3%A9&requestIdFromClient=42".toList :=
  ⟨C10_simple_string_argument
     { deserializeErr := none, arguments := [Arg.str "q=test é".toList],
       requestID := 42, attachments := [] }
     { parameters := [("serialization".toList, "simple".toList)] } id
     "q=test é".toList rfl (by decide) rfl,
   by decide⟩

/-! ## Round trip -/

theorem cutAt_append_no_cr (s : GoString) :
    ∀ l : GoString, '\r' ∉ l →
      cutAt sepCRLFCRLF (l ++ s) =
        match cutAt sepCRLFCRLF s with
        | none => none
        | some (a, b) => some (l ++ a, b) := by
  intro l
  induction l with
  | nil =>
    intro _
    rw [List.nil_append]
    cases cutAt sepCRLFCRLF s with
    | none => rfl
    | some p => simp
  | cons c cs ih =>
    intro h
    simp only [List.mem_cons, not_or] at h
    have hc : ¬ ('\r' = c) := h.1
    have hp : sepCRLFCRLF.isPrefixOf (c :: (cs ++ s)) = false := by
      simp [sepCRLFCRLF, List.isPrefixOf, hc]
    rw [List.cons_append, cutAt, hp, ih h.2]
    cases cutAt sepCRLFCRLF s with
    | none => simp
    | some p => simp

theorem cutAt_crlf_step (x : Char) (s : GoString) (hx : x ≠ '\r') :
    cutAt sepCRLFCRLF (sepCRLF ++ x :: s) =
      match cutAt sepCRLFCRLF (x :: s) with
      | none => none
      | some (a, b) => some (sepCRLF ++ a, b) := by
  have hx2 : ¬ ('\r' = x) := fun e => hx e.symm
  have hp1 : sepCRLFCRLF.isPrefixOf ('\r' :: '\n' :: x :: s) = false := by
    simp [sepCRLFCRLF, List.isPrefixOf, hx2]
  have hp2 : sepCRLFCRLF.isPrefixOf ('\n' :: x :: s) = false := by
    simp [sepCRLFCRLF, List.isPrefixOf]
  show cutAt sepCRLFCRLF ('\r' :: '\n' :: x :: s) = _
  rw [cutAt, hp1]
  simp only [Bool.false_eq_true, if_false]
  rw [cutAt, hp2]
  simp only [Bool.false_eq_true, if_false]
  cases cutAt sepCRLFCRLF (x :: s) with
  | none => rfl
  | some p => simp [sepCRLF]

theorem joinLines_cons_cons (l l2 : GoString) (ls : List GoString) :
    joinLines (l :: l2 :: ls) = l ++ sepCRLF ++ joinLines (l2 :: ls) := rfl

theorem joinLines_head (l : GoString) (ls : List GoString) :
    ∃ t, joinLines (l :: ls) = l ++ t := by
  cases ls with
  | nil => exact ⟨[], by simp [joinLines]⟩
  | cons l2 ls => exact ⟨sepCRLF ++ joinLines (l2 :: ls), by simp [joinLines]⟩

theorem cutAt_serialized (body : GoString) :
    ∀ lines : List GoString, (∀ l ∈ lines, '\r' ∉ l ∧ l ≠ []) →
      cutAt sepCRLFCRLF (joinLines lines ++ sepCRLFCRLF ++ body) =
        some (joinLines lines, body) := by
  have e : cutAt sepCRLFCRLF (sepCRLFCRLF ++ body) = some ([], body) := by
    simp [sepCRLFCRLF, cutAt, List.isPrefixOf]
  intro lines
  induction lines with
  | nil =>
    intro _
    simpa [joinLines] using e
  | cons l ls ih =>
    intro h
    have hl := h l (List.mem_cons_self _ _)
    cases ls with
    | nil =>
      simp only [joinLines, List.append_assoc]
      rw [cutAt_append_no_cr _ l hl.1, e]
      simp
    | cons l2 ls2 =>
      have hrec := ih (fun x hx => h x (List.mem_cons_of_mem _ hx))
      have hl2 := h l2 (List.mem_cons_of_mem _ (List.mem_cons_self _ _))
      obtain ⟨t, ht⟩ := joinLines_head l2 ls2
      cases hl2c : l2 with
      | nil => exact absurd hl2c hl2.2
      | cons x xs =>
        have hx : x ≠ '\r' := by
          intro e1
          apply hl2.1
          rw [hl2c, e1]
          exact List.mem_cons_self _ _
        have hshape : joinLines (l2 :: ls2) ++ sepCRLFCRLF ++ body =
            x :: (xs ++ t ++ sepCRLFCRLF ++ body) := by
          rw [ht, hl2c]; simp
        rw [← hl2c, joinLines_cons_cons]
        simp only [List.append_assoc]
        rw [cutAt_append_no_cr _ l hl.1]
        have hrec2 : cutAt sepCRLFCRLF (joinLines (l2 :: ls2) ++ (sepCRLFCRLF ++ body)) =
            some (joinLines (l2 :: ls2), body) := by
          simpa only [List.append_assoc] using hrec
        have hshape2 : joinLines (l2 :: ls2) ++ (sepCRLFCRLF ++ body) =
            x :: (xs ++ t ++ sepCRLFCRLF ++ body) := by
          simpa only [List.append_assoc] using hshape
        rw [hshape2] at hrec2 ⊢
        rw [cutAt_crlf_step x _ hx, hrec2]

theorem length_joinLines :
    ∀ lines : List GoString, lines.length ≤ (joinLines lines).length + 1 := by
  intro lines
  induction lines with
  | nil => simp
  | cons l ls ih =>
    cases ls with
    | nil => simp
    | cons l2 ls2 =>
      rw [joinLines_cons_cons]
      simp only [List.length_cons, List.length_append, sepCRLF] at ih ⊢
      omega

theorem no_infix_crlf_of_no_cr {l : GoString} (h : '\r' ∉ l) : ¬ sepCRLF <:+: l := by
  intro hin
  apply h
  exact hin.subset (by simp [sepCRLF])

theorem splitLoop_joinLines :
    ∀ (lines : List GoString) (k : Nat), lines ≠ [] → (∀ l ∈ lines, '\r' ∉ l) →
      lines.length ≤ k + 1 → splitLoop sepCRLF k (joinLines lines) = lines := by
  intro lines
  induction lines with
  | nil => intro k h; exact absurd rfl h
  | cons l ls ih =>
    intro k _ h hk
    have hl := h l (List.mem_cons_self _ _)
    cases ls with
    | nil =>
      have hn : cutAt sepCRLF l = none := cutAt_eq_none.mpr (no_infix_crlf_of_no_cr hl)
      cases k with
      | zero => simp [joinLines, splitLoop]
      | succ k => simp [joinLines, splitLoop, hn]
    | cons l2 ls2 =>
      cases k with
      | zero => simp at hk
      | succ k =>
        have hc := cutAt_crlf_of_no_infix (joinLines (l2 :: ls2)) (no_infix_crlf_of_no_cr hl)
        rw [joinLines_cons_cons]
        simp only [splitLoop, hc]
        rw [ih k (by simp) (fun x hx => h x (List.mem_cons_of_mem _ hx))
          (by simp only [List.length_cons] at hk ⊢; omega)]

theorem Split_joinLines (lines : List GoString) (hne : lines ≠ [])
    (h : ∀ l ∈ lines, '\r' ∉ l) : Split (joinLines lines) sepCRLF = lines := by
  rw [Split_eq sepCRLF_ne]
  exact splitLoop_joinLines lines _ hne h (length_joinLines lines)

theorem takeWhile_append_cons_ne {c : Char} :
    ∀ (a b : GoString), c ∉ a → (a ++ c :: b).takeWhile (· != c) = a := by
  intro a b
  induction a with
  | nil => intro _; simp [List.takeWhile_cons]
  | cons d ds ih =>
    intro h
    simp only [List.mem_cons, not_or] at h
    have hd : d ≠ c := fun e => h.1 e.symm
    simp [List.takeWhile_cons, hd, ih h.2]

theorem dropWhile_append_cons_ne {c : Char} :
    ∀ (a b : GoString), c ∉ a → (a ++ c :: b).dropWhile (· != c) = c :: b := by
  intro a b
  induction a with
  | nil => intro _; simp [List.dropWhile_cons]
  | cons d ds ih =>
    intro h
    simp only [List.mem_cons, not_or] at h
    have hd : d ≠ c := fun e => h.1 e.symm
    simp [List.dropWhile_cons, hd, ih h.2]

theorem dropWhile_eq_self {p : Char → Bool} :
    ∀ {l : GoString}, (∀ c, l.head? = some c → p c = false) → l.dropWhile p = l := by
  intro l h
  cases l with
  | nil => rfl
  | cons c cs =>
    have := h c rfl
    simp [List.dropWhile_cons, this]

theorem TrimSpace_space_cons {v : GoString}
    (hhead : ∀ c, v.head? = some c → isSpace c = false)
    (hlast : ∀ c, v.getLast? = some c → isSpace c = false) :
    TrimSpace (' ' :: v) = v := by
  have h1 : (' ' :: v).dropWhile isSpace = v := by
    have hs : isSpace ' ' = true := by decide
    rw [List.dropWhile_cons, hs]
    exact dropWhile_eq_self hhead
  have h2 : v.reverse.dropWhile isSpace = v.reverse := by
    apply dropWhile_eq_self
    intro c hc
    rw [List.head?_reverse] at hc
    exact hlast c hc
  simp [TrimSpace, h1, h2]

theorem set_of_not_mem (k v : GoString) :
    ∀ m : GoMap, k ∉ m.map Prod.fst → m.set k v = m ++ [(k, v)] := by
  intro m
  induction m with
  | nil => intro _; rfl
  | cons e rest ih =>
    intro h
    obtain ⟨k0, v0⟩ := e
    simp only [List.map_cons, List.mem_cons, not_or] at h
    have h0 : ¬ (k0 = k) := fun e => h.1 e.symm
    simp [GoMap.set, h0, ih h.2]

theorem headerLoop_serialized :
    ∀ (pairs acc : GoMap),
      (∀ p ∈ pairs, ':' ∉ p.1 ∧ p.1 ≠ statusKey ∧
        (∀ c, p.2.head? = some c → isSpace c = false) ∧
        (∀ c, p.2.getLast? = some c → isSpace c = false)) →
      (pairs.map Prod.fst).Nodup → (∀ p ∈ pairs, p.1 ∉ acc.map Prod.fst) →
      headerLoop acc (pairs.map headerLine) = acc ++ pairs := by
  intro pairs
  induction pairs with
  | nil => intro acc _ _ _; simp [headerLoop]
  | cons p rest ih =>
    intro acc hwf hnd hacc
    obtain ⟨name, value⟩ := p
    obtain ⟨hcolon, hstatus, hhead, hlast⟩ := hwf (name, value) (List.mem_cons_self _ _)
    have hmem : ':' ∈ headerLine (name, value) := by simp [headerLine]
    have htake : (headerLine (name, value)).takeWhile (· != ':') = name := by
      simp only [headerLine, List.append_assoc, List.cons_append, List.nil_append]
      exact takeWhile_append_cons_ne name _ hcolon
    have hdrop : ((headerLine (name, value)).dropWhile (· != ':')).tail = ' ' :: value := by
      simp only [headerLine, List.append_assoc, List.cons_append, List.nil_append]
      rw [dropWhile_append_cons_ne name _ hcolon]
      rfl
    simp only [List.map_cons, List.nodup_cons] at hnd
    have hnew : name ∉ acc.map Prod.fst := hacc (name, value) (List.mem_cons_self _ _)
    simp only [List.map_cons, headerLoop, SplitN_two_single, hmem, if_true, htake, hdrop,
      if_neg hstatus, TrimSpace_space_cons hhead hlast, set_of_not_mem name value acc hnew]
    rw [ih (acc ++ [(name, value)]) (fun q hq => hwf q (List.mem_cons_of_mem _ hq)) hnd.2]
    · simp
    · intro q hq
      simp only [List.map_append, List.map_cons, List.map_nil, List.mem_append,
        List.mem_singleton, not_or]
      refine ⟨hacc q (List.mem_cons_of_mem _ hq), ?_⟩
      intro e
      apply hnd.1
      rw [← e]
      exact List.mem_map_of_mem _ hq

theorem not_statusPrefix_headerLine {name value : GoString} (hcolon : ':' ∉ name)
    (hstatus : name ≠ statusKey) : ¬ statusPrefix <+: headerLine (name, value) := by
  intro hp
  obtain ⟨t, ht⟩ := hp
  apply hstatus
  have h1 : (headerLine (name, value)).takeWhile (· != ':') = name := by
    simp only [headerLine, List.append_assoc, List.cons_append, List.nil_append]
    exact takeWhile_append_cons_ne name _ hcolon
  have h2 : (statusPrefix ++ t).takeWhile (· != ':') = statusKey := by
    have e : statusPrefix ++ t = statusKey ++ ':' :: t := by
      simp [statusPrefix, statusKey]
    rw [e]
    exact takeWhile_append_cons_ne statusKey t (by decide)
  rw [← h1, ← ht, h2]

/-- Claim C8: for header pairs with pairwise distinct names, no name containing a colon,
CR or LF or equal to `Status`, no value containing CR or LF or starting or ending with
white space, and for any body, parsing the serialization (lines `name: value` joined by
CR LF, then CR LF CR LF, then the body) gives no error, status 200, a header map holding
exactly the original pairs, and the original body. -/
theorem C8_round_trip (pairs : GoMap) (body : GoString)
    (hdistinct : (pairs.map Prod.fst).Nodup)
    (hname : ∀ p ∈ pairs, ':' ∉ p.1 ∧ '\r' ∉ p.1 ∧ '\n' ∉ p.1 ∧ p.1 ≠ statusKey)
    (hvalue : ∀ p ∈ pairs, '\r' ∉ p.2 ∧ '\n' ∉ p.2 ∧
      (∀ c, p.2.head? = some c → isSpace c = false) ∧
      (∀ c, p.2.getLast? = some c → isSpace c = false)) :
    ∃ m : GoMap,
      ParseFastCgiResponse (serialize pairs body) =
        .ok { status := 200, headers := some m, body := body, err := none } ∧
      m.Perm pairs ∧ ∀ k, m.get k = pairs.lookup k := by
  have hlines : ∀ l ∈ pairs.map headerLine, '\r' ∉ l ∧ l ≠ [] := by
    intro l hl
    obtain ⟨p, hp, rfl⟩ := List.mem_map.mp hl
    have h1 := hname p hp
    have h2 := hvalue p hp
    refine ⟨?_, by simp [headerLine]⟩
    simp only [headerLine, List.mem_append, List.mem_cons, List.mem_singleton, not_or]
    exact ⟨⟨h1.2.1, by decide, by decide, by simp⟩, h2.1⟩
  have hcut := cutAt_serialized body (pairs.map headerLine) hlines
  have hloop : ∀ lines, lines = pairs.map headerLine ∨ (pairs = [] ∧ lines = [[]]) →
      headerLoop [] lines = pairs := by
    intro lines h
    rcases h with h | ⟨h1, h2⟩
    · rw [h, headerLoop_serialized pairs []
        (fun p hp => ⟨(hname p hp).1, (hname p hp).2.2.2, (hvalue p hp).2.2⟩) hdistinct
        (fun _ _ => by simp)]
      simp
    · subst h1 h2
      simp [headerLoop, SplitN_two_single]
  refine ⟨pairs, ?_, List.Perm.refl _, fun _ => rfl⟩
  unfold serialize
  rw [Parse_of_cut_some hcut, parseAfterCut_eq]
  cases hp : pairs with
  | nil =>
    subst hp
    have hsplit : Split (joinLines (List.map headerLine [])) sepCRLF = [[]] := by
      simp [joinLines, Split_eq sepCRLF_ne, splitLoop]
    have hfirst : firstPiece sepCRLF (joinLines (List.map headerLine [])) = [] := by
      simp [joinLines, firstPiece, cutAt_nil_of_ne sepCRLF_ne]
    rw [hsplit, hfirst, statusOfLine_eq, if_neg (by decide)]
    simp [hloop [[]] (Or.inr ⟨rfl, rfl⟩)]
  | cons p rest =>
    have hne : pairs.map headerLine ≠ [] := by simp [hp]
    have hsplit := Split_joinLines (pairs.map headerLine) hne (fun l hl => (hlines l hl).1)
    obtain ⟨tl, htl⟩ := Split_head sepCRLF_ne (joinLines (pairs.map headerLine))
    have hfirst : firstPiece sepCRLF (joinLines (pairs.map headerLine)) = headerLine p := by
      rw [hsplit, hp] at htl
      simp only [List.map_cons, List.cons.injEq] at htl
      rw [hp]
      exact htl.1.symm
    have hp1 := hname p (by rw [hp]; exact List.mem_cons_self _ _)
    rw [← hp, hsplit, hfirst, statusOfLine_eq,
      if_neg (not_statusPrefix_headerLine hp1.1 hp1.2.2.2)]
    simp [hloop _ (Or.inl rfl)]

theorem C8_round_trip_witness :
    ((["X-A".toList, "B".toList].Nodup) ∧
     serialize [("X-A".toList, "1 2".toList), ("B".toList, [])] "hi\r\n\r\nyo".toList =
       "X-A: 1 2\r\nB: \r\n\r\nhi\r\n\r\nyo".toList) ∧
    ∃ m : GoMap,
      ParseFastCgiResponse
          (serialize [("X-A".toList, "1 2".toList), ("B".toList, [])] "hi\r\n\r\nyo".toList) =
        .ok { status := 200, headers := some m, body := "hi\r\n\r\nyo".toList, err := none } ∧
      m.Perm [("X-A".toList, "1 2".toList), ("B".toList, [])] ∧
      ∀ k, m.get k = List.lookup k [("X-A".toList, "1 2".toList), ("B".toList, [])] :=
  ⟨⟨by decide, by decide⟩,
   C8_round_trip [("X-A".toList, "1 2".toList), ("B".toList, [])] "hi\r\n\r\nyo".toList
     (by decide) (by decide) (by decide)⟩

/-! ## The encoding of a mapping -/

theorem joinAmp_cons (f : GoString) (fs : List GoString) :
    joinAmp (f :: fs) = f ++ fs.flatMap (fun g => '&' :: g) := by
  induction fs generalizing f with
  | nil => simp [joinAmp]
  | cons g gs ih =>
    rw [joinAmp, ih g]
    simp

theorem foldl_queryStep_two (l : GoMap) :
    ∀ acc : GoString,
      l.foldl queryStep (acc, 2) = (acc ++ l.flatMap (fun kv => '&' :: renderField kv), 2) := by
  induction l with
  | nil => intro acc; simp
  | cons kv rest ih =>
    intro acc
    have h : queryStep (acc, 2) kv = (acc ++ ['&'] ++ renderField kv, 2) := by
      simp [queryStep, renderField]
    rw [List.foldl_cons, h, ih]
    simp

theorem foldl_queryStep (l : GoMap) :
    (l.foldl queryStep ([], 1)).1 = joinAmp (l.map renderField) := by
  cases l with
  | nil => simp [joinAmp]
  | cons kv rest =>
    have h : queryStep ([], 1) kv = (renderField kv, 2) := by
      simp [queryStep, renderField]
    rw [List.foldl_cons, h, foldl_queryStep_two, List.map_cons, joinAmp_cons]
    simp [List.flatMap_map]

theorem buildQueryStr_strMap (request : Request) (url : URL) (order : RangeOrder) (m : GoMap)
    (hdeser : request.deserializeErr = none)
    (hmode : url.parameters.getD serializationKey = Simple)
    (harg : request.arguments.head? = some (Arg.strMap m)) :
    buildQueryStr request url order =
      .ok (joinAmp ((order m).map renderField) ++ requestIdField ++
        formatDecimal request.requestID, none) := by
  unfold buildQueryStr
  cases hargs : request.arguments with
  | nil => rw [hargs] at harg; cases harg
  | cons first rest =>
    rw [hargs] at harg
    simp only [List.head?_cons, Option.some.injEq] at harg
    subst harg
    simp [hdeser, hmode, foldl_queryStep]

/-- Claim C11: in the "simple" mode, when the deserialization succeeds and the first
argument is the mapping `m`, whose entries the `range` statement visits each exactly once,
there is an ordering of the entries of `m` such that `buildQueryStr` returns the fields
`key=escaped value` of that ordering joined by `&`, followed by `&requestIdFromClient=`
and the request id in decimal, with no error. -/
theorem C11_simple_mapping_argument (request : Request) (url : URL) (order : RangeOrder)
    (m : GoMap) (hdeser : request.deserializeErr = none)
    (hmode : url.parameters.getD serializationKey = Simple)
    (harg : request.arguments.head? = some (Arg.strMap m))
    (horder : (order m).Perm m) :
    ∃ entries : GoMap, entries.Perm m ∧
      buildQueryStr request url order =
        .ok (joinAmp (entries.map renderField) ++ requestIdField ++
          formatDecimal request.requestID, none) :=
  ⟨order m, horder, buildQueryStr_strMap request url order m hdeser hmode harg⟩

theorem C11_simple_mapping_argument_witness :
    (∃ entries : GoMap,
      entries.Perm [("a".toList, "1".toList), ("b".toList, "x y".toList)] ∧
      buildQueryStr
          { deserializeErr := none,
            arguments := [Arg.strMap [("a".toList, "1".toList), ("b".toList, "x y".toList)]],
            requestID := 42, attachments := [] }
          { parameters := [(serializationKey, Simple)] } List.reverse =
        .ok (joinAmp (entries.map renderField) ++ requestIdField ++ formatDecimal 42, none)) ∧
    buildQueryStr
        { deserializeErr := none,
          arguments := [Arg.strMap [("a".toList, "1".toList), ("b".toList, "x y".toList)]],
          requestID := 42, attachments := [] }
        { parameters := [(serializationKey, Simple)] } List.reverse =
      .ok ("b=x+y&a=1&requestIdFromClient=42".toList, none) :=
  ⟨C11_simple_mapping_argument
     { deserializeErr := none,
       arguments := [Arg.strMap [("a".toList, "1".toList), ("b".toList, "x y".toList)]],
       requestID := 42, attachments := [] }
     { parameters := [(serializationKey, Simple)] } List.reverse
     [("a".toList, "1".toList), ("b".toList, "x y".toList)] rfl (by decide) rfl
     (List.reverse_perm _),
   by decide⟩

/-- Claim C12 (amended): two encodings of the same mapping with the same request id are
made of the same `key=escaped value` fields, each once, joined by `&` in the order in
which the `range` statement visits the map, and followed by the same request-id field;
they are the same string when the two visiting orders agree. -/
theorem C12_same_fields_any_order (request : Request) (url : URL) (order1 order2 : RangeOrder)
    (m : GoMap) (hdeser : request.deserializeErr = none)
    (hmode : url.parameters.getD serializationKey = Simple)
    (harg : request.arguments.head? = some (Arg.strMap m))
    (horder1 : (order1 m).Perm m) (horder2 : (order2 m).Perm m) :
    ∃ fields1 fields2 : List GoString,
      buildQueryStr request url order1 =
        .ok (joinAmp fields1 ++ requestIdField ++ formatDecimal request.requestID, none) ∧
      buildQueryStr request url order2 =
        .ok (joinAmp fields2 ++ requestIdField ++ formatDecimal request.requestID, none) ∧
      fields1.Perm fields2 ∧ fields1.Perm (m.map renderField) ∧
      (order1 m = order2 m →
        buildQueryStr request url order1 = buildQueryStr request url order2) := by
  refine ⟨(order1 m).map renderField, (order2 m).map renderField,
    buildQueryStr_strMap request url order1 m hdeser hmode harg,
    buildQueryStr_strMap request url order2 m hdeser hmode harg,
    (horder1.trans horder2.symm).map _, horder1.map _, ?_⟩
  intro h
  rw [buildQueryStr_strMap request url order1 m hdeser hmode harg,
    buildQueryStr_strMap request url order2 m hdeser hmode harg, h]

theorem C12_same_fields_any_order_witness :
    ∃ fields1 fields2 : List GoString,
      buildQueryStr
          { deserializeErr := none,
            arguments := [Arg.strMap [("a".toList, "1".toList), ("b".toList, "x y".toList)]],
            requestID := 42, attachments := [] }
          { parameters := [(serializationKey, Simple)] } id =
        .ok (joinAmp fields1 ++ requestIdField ++ formatDecimal 42, none) ∧
      buildQueryStr
          { deserializeErr := none,
            arguments := [Arg.strMap [("a".toList, "1".toList), ("b".toList, "x y".toList)]],
            requestID := 42, attachments := [] }
          { parameters := [(serializationKey, Simple)] } List.reverse =
        .ok (joinAmp fields2 ++ requestIdField ++ formatDecimal 42, none) ∧
      fields1.Perm fields2 ∧
      fields1.Perm ([("a".toList, "1".toList), ("b".toList, "x y".toList)].map renderField) ∧
      (id [("a".toList, "1".toList), ("b".toList, "x y".toList)] =
          List.reverse [("a".toList, "1".toList), ("b".toList, "x y".toList)] →
        buildQueryStr
            { deserializeErr := none,
              arguments := [Arg.strMap [("a".toList, "1".toList), ("b".toList, "x y".toList)]],
              requestID := 42, attachments := [] }
            { parameters := [(serializationKey, Simple)] } id =
          buildQueryStr
            { deserializeErr := none,
              arguments := [Arg.strMap [("a".toList, "1".toList), ("b".toList, "x y".toList)]],
              requestID := 42, attachments := [] }
            { parameters := [(serializationKey, Simple)] } List.reverse) :=
  C12_same_fields_any_order
    { deserializeErr := none,
      arguments := [Arg.strMap [("a".toList, "1".toList), ("b".toList, "x y".toList)]],
      requestID := 42, attachments := [] }
    { parameters := [(serializationKey, Simple)] } id List.reverse
    [("a".toList, "1".toList), ("b".toList, "x y".toList)] rfl (by decide) rfl
    (List.Perm.refl _) (List.reverse_perm _)

/-- Claim C12 as stated fails: the same mapping with the same request id is encoded to two
different strings when the `range` statement visits its entries in two different orders;
neither encoding is sorted by key in general. -/
theorem C12_order_dependent_counterexample :
    (id [("a".toList, "1".toList), ("b".toList, "x y".toList)]).Perm
      [("a".toList, "1".toList), ("b".toList, "x y".toList)] ∧
    (List.reverse [("a".toList, "1".toList), ("b".toList, "x y".toList)]).Perm
      [("a".toList, "1".toList), ("b".toList, "x y".toList)] ∧
    buildQueryStr
        { deserializeErr := none,
          arguments := [Arg.strMap [("a".toList, "1".toList), ("b".toList, "x y".toList)]],
          requestID := 42, attachments := [] }
        { parameters := [(serializationKey, Simple)] } id =
      .ok ("a=1&b=x+y&requestIdFromClient=42".toList, none) ∧
    buildQueryStr
        { deserializeErr := none,
          arguments := [Arg.strMap [("a".toList, "1".toList), ("b".toList, "x y".toList)]],
          requestID := 42, attachments := [] }
        { parameters := [(serializationKey, Simple)] } List.reverse =
      .ok ("b=x+y&a=1&requestIdFromClient=42".toList, none) ∧
    "a=1&b=x+y&requestIdFromClient=42".toList ≠ "b=x+y&a=1&requestIdFromClient=42".toList :=
  ⟨List.Perm.refl _, List.reverse_perm _, by decide, by decide, by decide⟩

/-- Claim C13 (amended): `buildQueryStr` returns exactly `&requestIdFromClient=` followed by
the request id in decimal whenever the serialization mode is not "simple", or the argument
list is empty, or the first argument is neither a string nor a string-to-string mapping
and is not the nil interface value of a request whose deserialization succeeded. None of
these cases adds an error: the error returned is the one of the deserialization, nil when
the deserialization succeeded. -/
theorem C13_empty_base_encoding (request : Request) (url : URL) (order : RangeOrder)
    (h : url.parameters.getD serializationKey ≠ Simple ∨ request.arguments = [] ∨
      ∃ first, request.arguments.head? = some first ∧
        (∀ s, first ≠ Arg.str s) ∧ (∀ m, first ≠ Arg.strMap m) ∧
        (first = Arg.nilValue → request.deserializeErr ≠ none)) :
    buildQueryStr request url order =
      .ok (requestIdField ++ formatDecimal request.requestID, request.deserializeErr) := by
  unfold buildQueryStr
  by_cases herr : request.deserializeErr = none
  · cases hargs : request.arguments with
    | nil => simp [herr]
    | cons first rest =>
      rw [hargs] at h
      rcases h with h | h | ⟨a, ha, hstr, hmap, hnil⟩
      · simp [herr, h]
      · cases h
      · simp only [List.head?_cons, Option.some.injEq] at ha
        subst ha
        by_cases hmode : url.parameters.getD serializationKey = Simple
        · cases first with
          | str s => exact absurd rfl (hstr s)
          | strMap m => exact absurd rfl (hmap m)
          | other => simp [herr, hmode]
          | nilValue => exact absurd herr (hnil rfl)
        · simp [herr, hmode]
  · simp [herr]

theorem C13_empty_base_encoding_witness :
    buildQueryStr
        { deserializeErr := none, arguments := [Arg.other], requestID := 42, attachments := [] }
        { parameters := [(serializationKey, Simple)] } id =
      .ok (requestIdField ++ formatDecimal 42, none) ∧
    buildQueryStr
        { deserializeErr := some "bad payload".toList, arguments := [Arg.nilValue],
          requestID := 7, attachments := [] }
        { parameters := [(serializationKey, Simple)] } id =
      .ok (requestIdField ++ formatDecimal 7, some "bad payload".toList) ∧
    buildQueryStr
        { deserializeErr := none, arguments := [Arg.nilValue], requestID := 7,
          attachments := [] }
        { parameters := [(serializationKey, "json".toList)] } id =
      .ok ("&requestIdFromClient=7".toList, none) :=
  ⟨C13_empty_base_encoding
     { deserializeErr := none, arguments := [Arg.other], requestID := 42, attachments := [] }
     { parameters := [(serializationKey, Simple)] } id
     (Or.inr (Or.inr ⟨Arg.other, rfl, fun _ e => Arg.noConfusion e, fun _ e => Arg.noConfusion e,
       fun e => Arg.noConfusion e⟩)),
   C13_empty_base_encoding
     { deserializeErr := some "bad payload".toList, arguments := [Arg.nilValue],
       requestID := 7, attachments := [] }
     { parameters := [(serializationKey, Simple)] } id
     (Or.inr (Or.inr ⟨Arg.nilValue, rfl, fun _ e => Arg.noConfusion e, fun _ e => Arg.noConfusion e,
       fun _ => (by decide)⟩)),
   by decide⟩

/-- Claim C13 as stated fails: in the "simple" mode, after a successful deserialization, a
first argument that is the nil interface value, which is neither a string nor a
string-to-string mapping, has no dynamic type; `buildQueryStr` panics in
`reflect.Value.Type` and returns nothing. -/
theorem C13_nil_argument_counterexample :
    (∀ s, Arg.nilValue ≠ Arg.str s) ∧ (∀ m, Arg.nilValue ≠ Arg.strMap m) ∧
    buildQueryStr
        { deserializeErr := none, arguments := [Arg.nilValue], requestID := 42,
          attachments := [] }
        { parameters := [(serializationKey, Simple)] } id =
      .error "reflect: call of reflect.Value.Type on zero Value" :=
  ⟨fun _ e => Arg.noConfusion e, fun _ e => Arg.noConfusion e, by decide⟩

/-! ## The environment -/

theorem neededLoop_get_of_not_mem (url : URL) (key : GoString) :
    ∀ (keys : List GoString) (env : GoMap), key ∉ keys →
      (neededLoop url env keys).get key = env.get key := by
  intro keys
  induction keys with
  | nil => intro env _; rfl
  | cons k rest ih =>
    intro env h
    simp only [List.mem_cons, not_or] at h
    simp only [neededLoop]
    cases url.parameters.get (CGIKeyPrefix ++ k) with
    | none => exact ih env h.2
    | some info =>
      simp only []
      rw [ih _ h.2, get_set, if_neg h.1]

theorem neededLoop_get_of_mem (url : URL) (key : GoString) :
    ∀ (keys : List GoString) (env : GoMap), keys.Nodup → key ∈ keys →
      (neededLoop url env keys).get key =
        match url.parameters.get (CGIKeyPrefix ++ key) with
        | some info => some info
        | none => env.get key := by
  intro keys
  induction keys with
  | nil => intro env _ h; cases h
  | cons k rest ih =>
    intro env hnd h
    simp only [List.nodup_cons] at hnd
    simp only [neededLoop]
    by_cases hk : key = k
    · subst hk
      cases hp : url.parameters.get (CGIKeyPrefix ++ key) with
      | none => simp only []; exact neededLoop_get_of_not_mem url key rest env hnd.1
      | some info =>
        simp only []
        rw [neededLoop_get_of_not_mem url key rest _ hnd.1, get_set, if_pos rfl]
    · have hmem : key ∈ rest := by
        rcases List.mem_cons.mp h with h1 | h1
        · exact absurd h1 hk
        · exact h1
      cases url.parameters.get (CGIKeyPrefix ++ k) with
      | none => simp only []; exact ih env hnd.2 hmem
      | some info =>
        simp only []
        rw [ih _ hnd.2 hmem, get_set, if_neg hk]

theorem baseEnv_get_method (url : URL) :
    (baseEnv url).getD keyRequestMethod = configuredMethod url := by
  unfold baseEnv configuredMethod GoMap.getD
  rw [neededLoop_get_of_mem url keyRequestMethod NeededCGIEnv _ (by decide) (by decide)]
  cases url.parameters.get (CGIKeyPrefix ++ keyRequestMethod) with
  | none => simp only []; decide
  | some info => rfl

theorem baseEnv_get_encode_keys (url : URL) :
    (baseEnv url).get keyQueryString = none ∧ (baseEnv url).get keyContentType = none ∧
      (baseEnv url).get keyContentLength = none := by
  unfold baseEnv
  refine ⟨?_, ?_, ?_⟩
  · rw [neededLoop_get_of_not_mem url _ NeededCGIEnv _ (by decide)]; decide
  · rw [neededLoop_get_of_not_mem url _ NeededCGIEnv _ (by decide)]; decide
  · rw [neededLoop_get_of_not_mem url _ NeededCGIEnv _ (by decide)]; decide

theorem foldl_attachStep_get_of_ne (key : GoString) :
    ∀ (l : GoMap) (env : GoMap), (∀ k ∈ l.map Prod.fst, key ≠ motanPrefix ++ k) →
      (l.foldl attachStep env).get key = env.get key := by
  intro l
  induction l with
  | nil => intro env _; rfl
  | cons kv rest ih =>
    intro env h
    rw [List.foldl_cons, ih _ (fun k hk => h k (by simp only [List.map_cons]; exact List.mem_cons_of_mem _ hk))]
    unfold attachStep
    rw [get_set, if_neg (h kv.1 (by simp))]

theorem foldl_attachStep_get_of_mem :
    ∀ (l : GoMap) (env : GoMap) (k v : GoString), (l.map Prod.fst).Nodup → (k, v) ∈ l →
      (l.foldl attachStep env).get (motanPrefix ++ k) = some v := by
  intro l
  induction l with
  | nil => intro env k v _ h; cases h
  | cons kv rest ih =>
    intro env k v hnd h
    simp only [List.map_cons, List.nodup_cons] at hnd
    rw [List.foldl_cons]
    rcases List.mem_cons.mp h with h1 | h1
    · subst h1
      rw [foldl_attachStep_get_of_ne]
      · unfold attachStep
        rw [get_set, if_pos rfl]
      · intro k2 hk2 e
        have : k = k2 := List.append_cancel_left e
        exact hnd.1 (this ▸ hk2)
    · exact ih _ k v hnd.2 h1

theorem prepareEnv_eq (url : URL) (request : Request) (rt : Runtime) :
    prepareEnv url request rt =
      (rt.attachOrder request.attachments).foldl attachStep (baseEnv url) := rfl

theorem method_ne_motan (k : GoString) : keyRequestMethod ≠ motanPrefix ++ k := by
  intro h
  have := congrArg List.head? h
  simp [keyRequestMethod, motanPrefix] at this

theorem queryString_ne_motan (k : GoString) : keyQueryString ≠ motanPrefix ++ k := by
  intro h
  have := congrArg List.head? h
  simp [keyQueryString, motanPrefix] at this

theorem contentType_ne_motan (k : GoString) : keyContentType ≠ motanPrefix ++ k := by
  intro h
  have := congrArg List.head? h
  simp [keyContentType, motanPrefix] at this

theorem contentLength_ne_motan (k : GoString) : keyContentLength ≠ motanPrefix ++ k := by
  intro h
  have := congrArg List.head? h
  simp [keyContentLength, motanPrefix] at this

theorem prepareEnv_get_method (url : URL) (request : Request) (rt : Runtime) :
    (prepareEnv url request rt).getD keyRequestMethod = configuredMethod url := by
  rw [← baseEnv_get_method, prepareEnv_eq]
  unfold GoMap.getD
  rw [foldl_attachStep_get_of_ne _ _ _ (fun k _ => method_ne_motan k)]

theorem prepareEnv_get_encode_keys (url : URL) (request : Request) (rt : Runtime) :
    (prepareEnv url request rt).get keyQueryString = none ∧
      (prepareEnv url request rt).get keyContentType = none ∧
      (prepareEnv url request rt).get keyContentLength = none := by
  obtain ⟨h1, h2, h3⟩ := baseEnv_get_encode_keys url
  rw [prepareEnv_eq]
  refine ⟨?_, ?_, ?_⟩
  · rw [foldl_attachStep_get_of_ne _ _ _ (fun k _ => queryString_ne_motan k), h1]
  · rw [foldl_attachStep_get_of_ne _ _ _ (fun k _ => contentType_ne_motan k), h2]
  · rw [foldl_attachStep_get_of_ne _ _ _ (fun k _ => contentLength_ne_motan k), h3]

theorem GET_ne_POST : HTTPMethodGET ≠ HTTPMethodPOST := by decide

/-- Claim C16: for the environment and the body that `Call` hands to the FastCGI client.
With the configured method POST the body is the payload of `buildQueryStr` (empty when
the encoder returned an error), `CONTENT_TYPE` is `application/x-www-form-urlencoded` and
`CONTENT_LENGTH` is the byte length of that body in decimal; with GET, `QUERY_STRING` is
the payload (absent when the encoder returned an error), the body is empty and neither
`CONTENT_TYPE` nor `CONTENT_LENGTH` is set; with any other or no method none of the three
keys is set and the body is empty. -/
theorem C16_encode_step (url : URL) (request : Request) (rt : Runtime)
    (env : GoMap) (body : GoString) (henv : encodeStep url request rt = .ok (env, body)) :
    (configuredMethod url = HTTPMethodPOST →
      ∃ payload err, buildQueryStr request url rt.argOrder = .ok (payload, err) ∧
        body = (if err = none then payload else []) ∧
        env.get keyContentType = some formContentType ∧
        env.get keyContentLength = some (formatDecimal (byteLen body))) ∧
    (configuredMethod url = HTTPMethodGET →
      ∃ payload err, buildQueryStr request url rt.argOrder = .ok (payload, err) ∧
        env.get keyQueryString = (if err = none then some payload else none) ∧
        body = [] ∧ env.get keyContentType = none ∧ env.get keyContentLength = none) ∧
    (configuredMethod url ≠ HTTPMethodPOST → configuredMethod url ≠ HTTPMethodGET →
      env.get keyQueryString = none ∧ env.get keyContentType = none ∧
        env.get keyContentLength = none ∧ body = []) := by
  obtain ⟨hq, ht, hl⟩ := prepareEnv_get_encode_keys url request rt
  have hqt : keyQueryString ≠ keyContentType := by decide
  have hql : keyQueryString ≠ keyContentLength := by decide
  have htl : keyContentType ≠ keyContentLength := by decide
  simp only [encodeStep, prepareEnv_get_method] at henv
  by_cases hget : configuredMethod url = HTTPMethodGET
  · have hpost : configuredMethod url ≠ HTTPMethodPOST := fun e => GET_ne_POST (hget.symm.trans e)
    rw [if_pos hget] at henv
    refine ⟨fun e => absurd e hpost, fun _ => ?_, fun _ h => absurd hget h⟩
    cases hb : buildQueryStr request url rt.argOrder with
    | error e => rw [hb] at henv; cases henv
    | ok p =>
      obtain ⟨payload, err⟩ := p
      rw [hb] at henv
      refine ⟨payload, err, rfl, ?_⟩
      by_cases herr : err = none
      · simp only [herr, if_true, Except.ok.injEq, Prod.mk.injEq] at henv ⊢
        obtain ⟨rfl, rfl⟩ := henv
        refine ⟨?_, rfl, ?_, ?_⟩
        · rw [get_set, if_pos rfl]
        · rw [get_set, if_neg hqt.symm, ht]
        · rw [get_set, if_neg hql.symm, hl]
      · simp only [herr, if_false, Except.ok.injEq, Prod.mk.injEq] at henv ⊢
        obtain ⟨rfl, rfl⟩ := henv
        exact ⟨hq, rfl, ht, hl⟩
  · rw [if_neg hget] at henv
    by_cases hpost : configuredMethod url = HTTPMethodPOST
    · rw [if_pos hpost] at henv
      refine ⟨fun _ => ?_, fun e => absurd e hget, fun h _ => absurd hpost h⟩
      cases hb : buildQueryStr request url rt.argOrder with
      | error e => rw [hb] at henv; cases henv
      | ok p =>
        obtain ⟨payload, err⟩ := p
        rw [hb] at henv
        simp only [Except.ok.injEq, Prod.mk.injEq] at henv
        obtain ⟨rfl, rfl⟩ := henv
        refine ⟨payload, err, rfl, rfl, ?_, ?_⟩
        · rw [get_set, if_neg htl, get_set, if_pos rfl]
        · rw [get_set, if_pos rfl]
    · rw [if_neg hpost] at henv
      simp only [Except.ok.injEq, Prod.mk.injEq] at henv
      obtain ⟨rfl, rfl⟩ := henv
      exact ⟨fun e => absurd e hpost, fun e => absurd e hget, fun _ _ => ⟨hq, ht, hl, rfl⟩⟩

theorem C16_encode_step_witness :
    encodeStep (exampleURL HTTPMethodPOST) exampleRequest (exampleRuntime id ⟨[], none⟩) =
      .ok ([("SERVER_SOFTWARE".toList, "Motan / CGI".toList),
            ("REQUEST_METHOD".toList, "POST".toList),
            ("MOTAN_trace".toList, "t1".toList),
            ("MOTAN_REQUEST_METHOD".toList, "PUT".toList),
            ("CONTENT_TYPE".toList, "application/x-www-form-urlencoded".toList),
            ("CONTENT_LENGTH".toList, "29".toList)],
           "é=x+y&requestIdFromClient=42".toList) ∧
    (configuredMethod (exampleURL HTTPMethodPOST) = HTTPMethodPOST →
      ∃ payload err,
        buildQueryStr exampleRequest (exampleURL HTTPMethodPOST)
          (exampleRuntime id ⟨[], none⟩).argOrder = .ok (payload, err) ∧
        "é=x+y&requestIdFromClient=42".toList = (if err = none then payload else []) ∧
        GoMap.get [("SERVER_SOFTWARE".toList, "Motan / CGI".toList),
            ("REQUEST_METHOD".toList, "POST".toList),
            ("MOTAN_trace".toList, "t1".toList),
            ("MOTAN_REQUEST_METHOD".toList, "PUT".toList),
            ("CONTENT_TYPE".toList, "application/x-www-form-urlencoded".toList),
            ("CONTENT_LENGTH".toList, "29".toList)] keyContentType = some formContentType ∧
        GoMap.get [("SERVER_SOFTWARE".toList, "Motan / CGI".toList),
            ("REQUEST_METHOD".toList, "POST".toList),
            ("MOTAN_trace".toList, "t1".toList),
            ("MOTAN_REQUEST_METHOD".toList, "PUT".toList),
            ("CONTENT_TYPE".toList, "application/x-www-form-urlencoded".toList),
            ("CONTENT_LENGTH".toList, "29".toList)] keyContentLength =
          some (formatDecimal (byteLen "é=x+y&requestIdFromClient=42".toList))) :=
  ⟨by decide,
   (C16_encode_step (exampleURL HTTPMethodPOST) exampleRequest (exampleRuntime id ⟨[], none⟩)
     _ _ (by decide)).1⟩

/-- Claim C15: in the environment that `Call` hands to the FastCGI client, every
attachment `(k, v)` is found under the key `MOTAN_k` with the value `v`, and every key
that is not `MOTAN_k` for an attachment key `k` is present or absent, with the same
value, exactly as in the environment built for the same configuration and request
without attachments. -/
theorem C15_attachments_in_environment (url : URL) (request : Request) (rt : Runtime)
    (env : GoMap) (body : GoString)
    (hnodup : (request.attachments.map Prod.fst).Nodup)
    (horder : ∀ m, (rt.attachOrder m).Perm m)
    (henv : encodeStep url request rt = .ok (env, body)) :
    (∀ k v, (k, v) ∈ request.attachments → env.get (motanPrefix ++ k) = some v) ∧
    ∃ env0, encodeStep url { request with attachments := [] } rt = .ok (env0, body) ∧
      ∀ key, (∀ k ∈ request.attachments.map Prod.fst, key ≠ motanPrefix ++ k) →
        env.get key = env0.get key := by
  have hperm := horder request.attachments
  have hnd : ((rt.attachOrder request.attachments).map Prod.fst).Nodup :=
    (hperm.map Prod.fst).nodup_iff.mpr hnodup
  have hnil : rt.attachOrder [] = [] := List.Perm.eq_nil (horder [])
  -- the environment before the encode step, with and without the attachments
  have hA : ∀ k v, (k, v) ∈ request.attachments →
      (prepareEnv url request rt).get (motanPrefix ++ k) = some v := by
    intro k v hkv
    rw [prepareEnv_eq]
    exact foldl_attachStep_get_of_mem _ _ k v hnd (hperm.mem_iff.mpr hkv)
  have h0 : prepareEnv url { request with attachments := [] } rt = baseEnv url := by
    rw [prepareEnv_eq]
    simp only [hnil, List.foldl_nil]
  have hF : ∀ key, (∀ k ∈ request.attachments.map Prod.fst, key ≠ motanPrefix ++ k) →
      (prepareEnv url request rt).get key = (baseEnv url).get key := by
    intro key hkey
    rw [prepareEnv_eq]
    apply foldl_attachStep_get_of_ne
    intro k hk
    exact hkey k ((hperm.map Prod.fst).mem_iff.mp hk)
  have hb : buildQueryStr { request with attachments := [] } url rt.argOrder =
      buildQueryStr request url rt.argOrder := rfl
  simp only [encodeStep, prepareEnv_get_method] at henv
  simp only [encodeStep, hb, h0, baseEnv_get_method]
  by_cases hget : configuredMethod url = HTTPMethodGET
  · rw [if_pos hget] at henv ⊢
    cases hbq : buildQueryStr request url rt.argOrder with
    | error e => rw [hbq] at henv; cases henv
    | ok p =>
      obtain ⟨payload, err⟩ := p
      rw [hbq] at henv
      by_cases herr : err = none
      · simp only [herr, if_true, Except.ok.injEq, Prod.mk.injEq] at henv ⊢
        obtain ⟨rfl, rfl⟩ := henv
        refine ⟨fun k v hkv => ?_, _, ⟨rfl, rfl⟩, fun key hkey => ?_⟩
        · rw [get_set, if_neg (queryString_ne_motan k).symm, hA k v hkv]
        · rw [get_set, get_set, hF key hkey]
      · simp only [herr, if_false, Except.ok.injEq, Prod.mk.injEq] at henv ⊢
        obtain ⟨rfl, rfl⟩ := henv
        exact ⟨hA, _, ⟨rfl, rfl⟩, hF⟩
  · rw [if_neg hget] at henv ⊢
    by_cases hpost : configuredMethod url = HTTPMethodPOST
    · rw [if_pos hpost] at henv ⊢
      cases hbq : buildQueryStr request url rt.argOrder with
      | error e => rw [hbq] at henv; cases henv
      | ok p =>
        obtain ⟨payload, err⟩ := p
        rw [hbq] at henv
        simp only [Except.ok.injEq, Prod.mk.injEq] at henv ⊢
        obtain ⟨rfl, rfl⟩ := henv
        refine ⟨fun k v hkv => ?_, _, ⟨rfl, rfl⟩, fun key hkey => ?_⟩
        · rw [get_set, if_neg (contentLength_ne_motan k).symm, get_set,
            if_neg (contentType_ne_motan k).symm, hA k v hkv]
        · rw [get_set, get_set, get_set, get_set, hF key hkey]
    · rw [if_neg hpost] at henv ⊢
      simp only [Except.ok.injEq, Prod.mk.injEq] at henv ⊢
      obtain ⟨rfl, rfl⟩ := henv
      exact ⟨hA, _, ⟨rfl, rfl⟩, hF⟩

theorem C15_attachments_in_environment_witness :
    (exampleRequest.attachments.map Prod.fst).Nodup ∧
    encodeStep (exampleURL HTTPMethodGET) exampleRequest
        (exampleRuntime List.reverse ⟨[], none⟩) =
      .ok ([("SERVER_SOFTWARE".toList, "Motan / CGI".toList),
            ("REQUEST_METHOD".toList, "GET".toList),
            ("MOTAN_REQUEST_METHOD".toList, "PUT".toList),
            ("MOTAN_trace".toList, "t1".toList),
            ("QUERY_STRING".toList, "é=x+y&requestIdFromClient=42".toList)], []) ∧
    ((∀ k v, (k, v) ∈ exampleRequest.attachments →
        GoMap.get [("SERVER_SOFTWARE".toList, "Motan / CGI".toList),
            ("REQUEST_METHOD".toList, "GET".toList),
            ("MOTAN_REQUEST_METHOD".toList, "PUT".toList),
            ("MOTAN_trace".toList, "t1".toList),
            ("QUERY_STRING".toList, "é=x+y&requestIdFromClient=42".toList)]
          (motanPrefix ++ k) = some v) ∧
      ∃ env0,
        encodeStep (exampleURL HTTPMethodGET) { exampleRequest with attachments := [] }
          (exampleRuntime List.reverse ⟨[], none⟩) = .ok (env0, []) ∧
        ∀ key, (∀ k ∈ exampleRequest.attachments.map Prod.fst, key ≠ motanPrefix ++ k) →
          GoMap.get [("SERVER_SOFTWARE".toList, "Motan / CGI".toList),
              ("REQUEST_METHOD".toList, "GET".toList),
              ("MOTAN_REQUEST_METHOD".toList, "PUT".toList),
              ("MOTAN_trace".toList, "t1".toList),
              ("QUERY_STRING".toList, "é=x+y&requestIdFromClient=42".toList)] key =
            env0.get key) :=
  ⟨by decide, by decide,
   C15_attachments_in_environment (exampleURL HTTPMethodGET) exampleRequest
     (exampleRuntime List.reverse ⟨[], none⟩) _ _ (by decide)
     (fun m => List.reverse_perm m) (by decide)⟩

/-! ## The response of `Call` -/

theorem Call_of_parse {url : URL} {request : Request} {rt : Runtime} {env : GoMap}
    {body : GoString} {out : TransportResult} {r : ParseResult}
    (henv : encodeStep url request rt = .ok (env, body))
    (hout : rt.transport (cgiHostOf url) (cgiPortOf url) env body = .ok out)
    (hparse : ParseFastCgiResponse out.content = .ok r) :
    Call (some url) request rt = some (mapStep request rt r) := by
  simp [Call, callBody, henv, hout, hparse, bind, Except.bind, pure, Except.pure]

theorem Call_of_parse_panic {url : URL} {request : Request} {rt : Runtime} {env : GoMap}
    {body : GoString} {out : TransportResult} {e : String}
    (henv : encodeStep url request rt = .ok (env, body))
    (hout : rt.transport (cgiHostOf url) (cgiPortOf url) env body = .ok out)
    (hparse : ParseFastCgiResponse out.content = .error e) :
    Call (some url) request rt = none := by
  simp [Call, callBody, henv, hout, hparse, bind, Except.bind]

theorem mem_keys_set (m : GoMap) (k v x : GoString) :
    x ∈ (m.set k v).map Prod.fst ↔ x = k ∨ x ∈ m.map Prod.fst := by
  induction m with
  | nil => simp [GoMap.set]
  | cons e rest ih =>
    obtain ⟨k0, v0⟩ := e
    by_cases h0 : k0 = k
    · subst h0
      simp [GoMap.set]
    · simp only [GoMap.set, if_neg h0, List.map_cons, List.mem_cons, ih]
      tauto

theorem nodup_keys_set (m : GoMap) (k v : GoString) (h : (m.map Prod.fst).Nodup) :
    ((m.set k v).map Prod.fst).Nodup := by
  induction m with
  | nil => simp [GoMap.set]
  | cons e rest ih =>
    obtain ⟨k0, v0⟩ := e
    simp only [List.map_cons, List.nodup_cons] at h
    by_cases h0 : k0 = k
    · subst h0
      simpa [GoMap.set] using h
    · simp only [GoMap.set, if_neg h0, List.map_cons, List.nodup_cons, mem_keys_set]
      refine ⟨?_, ih h.2⟩
      rintro (e | e)
      · exact h0 e
      · exact h.1 e

theorem nodup_keys_headerLoop (lines : List GoString) :
    ∀ acc : GoMap, (acc.map Prod.fst).Nodup → ((headerLoop acc lines).map Prod.fst).Nodup := by
  induction lines with
  | nil => intro acc h; exact h
  | cons line rest ih =>
    intro acc h
    simp only [headerLoop]
    split
    · split
      · exact ih acc h
      · exact ih _ (nodup_keys_set _ _ _ h)
    · exact ih acc h

theorem get_of_not_mem_keys :
    ∀ (l : GoMap) (k : GoString), k ∉ l.map Prod.fst → l.get k = none := by
  intro l
  induction l with
  | nil => intro k _; rfl
  | cons e rest ih =>
    intro k h
    obtain ⟨k0, v0⟩ := e
    simp only [List.map_cons, List.mem_cons, not_or] at h
    simp only [GoMap.get, lookup_cons_eq, if_neg h.1]
    exact ih k h.2

theorem get_of_mem_nodup :
    ∀ (l : GoMap) (k v : GoString), (l.map Prod.fst).Nodup → (k, v) ∈ l →
      l.get k = some v := by
  intro l
  induction l with
  | nil => intro k v _ h; cases h
  | cons e rest ih =>
    intro k v hnd h
    obtain ⟨k0, v0⟩ := e
    simp only [List.map_cons, List.nodup_cons] at hnd
    simp only [GoMap.get, lookup_cons_eq]
    rcases List.mem_cons.mp h with h1 | h1
    · simp only [Prod.mk.injEq] at h1
      rw [if_pos h1.1, h1.2]
    · have hne : k ≠ k0 := by
        intro e
        apply hnd.1
        rw [← e]
        exact List.mem_map_of_mem Prod.fst h1
      rw [if_neg hne]
      exact ih k v hnd.2 h1

theorem foldl_set_get_of_not_mem (k : GoString) :
    ∀ (l acc : GoMap), k ∉ l.map Prod.fst →
      (l.foldl (fun (a : GoMap) kv => a.set kv.1 kv.2) acc).get k = acc.get k := by
  intro l
  induction l with
  | nil => intro acc _; rfl
  | cons e rest ih =>
    intro acc h
    simp only [List.map_cons, List.mem_cons, not_or] at h
    rw [List.foldl_cons, ih _ h.2, get_set, if_neg h.1]

theorem foldl_set_get_of_mem :
    ∀ (l acc : GoMap) (k v : GoString), (l.map Prod.fst).Nodup → (k, v) ∈ l →
      (l.foldl (fun (a : GoMap) kv => a.set kv.1 kv.2) acc).get k = some v := by
  intro l
  induction l with
  | nil => intro acc k v _ h; cases h
  | cons e rest ih =>
    intro acc k v hnd h
    simp only [List.map_cons, List.nodup_cons] at hnd
    rw [List.foldl_cons]
    rcases List.mem_cons.mp h with h1 | h1
    · subst h1
      rw [foldl_set_get_of_not_mem _ _ _ hnd.1, get_set, if_pos rfl]
    · exact ih _ k v hnd.2 h1

/-- Copying a map entry by entry, in any order that visits each entry once, gives a map
with the same entries. -/
theorem copy_get (order : RangeOrder) (m : GoMap) (hperm : (order m).Perm m)
    (hnd : (m.map Prod.fst).Nodup) (k : GoString) :
    ((order m).foldl (fun (a : GoMap) kv => a.set kv.1 kv.2) ([] : GoMap)).get k = m.get k := by
  have hnd2 : ((order m).map Prod.fst).Nodup := (hperm.map Prod.fst).nodup_iff.mpr hnd
  by_cases hk : k ∈ m.map Prod.fst
  · obtain ⟨⟨k1, v⟩, hmem, rfl⟩ := List.mem_map.mp hk
    rw [get_of_mem_nodup m k1 v hnd hmem,
      foldl_set_get_of_mem _ _ k1 v hnd2 (hperm.mem_iff.mpr hmem)]
  · rw [get_of_not_mem_keys m k hk, foldl_set_get_of_not_mem]
    · rfl
    · intro h
      exact hk ((hperm.map Prod.fst).mem_iff.mp h)

theorem Parse_ok_cases {content : GoString} {r : ParseResult}
    (h : ParseFastCgiResponse content = .ok r) :
    (r = { status := 502, headers := none, body := [], err := some parseErrMsg }) ∨
    (r.err = none ∧ ∃ m : GoMap, r.headers = some m ∧ (m.map Prod.fst).Nodup) := by
  cases hc : cutAt sepCRLFCRLF content with
  | none =>
    rw [Parse_of_cut_none hc] at h
    simp only [Except.ok.injEq] at h
    exact Or.inl h.symm
  | some p =>
    obtain ⟨hdr, body⟩ := p
    obtain ⟨_, hh, he, _⟩ := Parse_ok_of_cut hc h
    exact Or.inr ⟨he, _, hh, nodup_keys_headerLoop _ [] (by simp)⟩

/-- Claim C17: when the FastCGI client returns a raw output on which the parser returns,
`Call` returns a response with exactly one of value and exception set. If the parser
reports no error, the value is the parsed body, the attachments are the entries of the
parsed header map and the exception is unset; if it reports an error, the value is unset,
the attachments are empty, and the exception carries the status 502 of the parser as
`ErrCode` and as `ErrType` and its message as `ErrMsg`. -/
theorem C17_map_step (url : URL) (request : Request) (rt : Runtime) (env : GoMap)
    (body : GoString) (out : TransportResult) (r : ParseResult)
    (horder : ∀ m, (rt.headerOrder m).Perm m)
    (henv : encodeStep url request rt = .ok (env, body))
    (hout : rt.transport (cgiHostOf url) (cgiPortOf url) env body = .ok out)
    (hparse : ParseFastCgiResponse out.content = .ok r) :
    ∃ resp, Call (some url) request rt = some resp ∧
      ((resp.value.isSome ∧ resp.exception = none) ∨
        (resp.value = none ∧ resp.exception.isSome)) ∧
      (r.err = none →
        resp.value = some r.body ∧ resp.exception = none ∧
        ∃ m, r.headers = some m ∧ ∀ k, resp.attachment.get k = m.get k) ∧
      (∀ msg, r.err = some msg →
        resp.value = none ∧ resp.attachment = [] ∧ r.status = 502 ∧ msg = parseErrMsg ∧
        resp.exception = some { errCode := 502, errMsg := msg, errType := 502 }) := by
  refine ⟨mapStep request rt r, Call_of_parse henv hout hparse, ?_⟩
  rcases Parse_ok_cases hparse with hr | ⟨he, m, hm, hnd⟩
  · subst hr
    refine ⟨Or.inr ⟨rfl, rfl⟩, fun h => (by cases h), ?_⟩
    intro msg hmsg
    simp only [Option.some.injEq] at hmsg
    subst hmsg
    exact ⟨rfl, rfl, rfl, rfl, rfl⟩
  · have hval : (mapStep request rt r).value = some r.body := by
      simp [mapStep, he]
    have hexc : (mapStep request rt r).exception = none := by
      simp [mapStep, he]
    have hatt : ∀ k, (mapStep request rt r).attachment.get k = m.get k := by
      intro k
      simp only [mapStep, he, hm, Option.getD_some]
      exact copy_get rt.headerOrder m (horder m) hnd k
    refine ⟨Or.inl ⟨by rw [hval]; rfl, hexc⟩, fun _ => ⟨hval, hexc, m, hm, hatt⟩, ?_⟩
    intro msg hmsg
    rw [he] at hmsg
    cases hmsg

theorem C17_map_step_witness :
    (encodeStep (exampleURL HTTPMethodPOST) exampleRequest
        (exampleRuntime List.reverse ⟨exampleOutput "Status: 200 OK".toList, none⟩) =
      .ok (exampleEnvPost, examplePayload) ∧
     ParseFastCgiResponse (exampleOutput "Status: 200 OK".toList) =
      .ok { status := 200, headers := some exampleHeaders, body := "body".toList,
            err := none }) ∧
    Call (some (exampleURL HTTPMethodPOST)) exampleRequest
        (exampleRuntime List.reverse ⟨exampleOutput "Status: 200 OK".toList, none⟩) =
      some { requestID := 42, processTime := 5,
             attachment := [("X-B".toList, "2".toList), ("X-A".toList, "1".toList)],
             value := some "body".toList, exception := none } ∧
    ∃ resp,
      Call (some (exampleURL HTTPMethodPOST)) exampleRequest
        (exampleRuntime List.reverse ⟨exampleOutput "Status: 200 OK".toList, none⟩) =
          some resp ∧
      ((resp.value.isSome ∧ resp.exception = none) ∨
        (resp.value = none ∧ resp.exception.isSome)) ∧
      ((none : Option GoString) = none →
        resp.value = some "body".toList ∧ resp.exception = none ∧
        ∃ m : GoMap, some exampleHeaders = some m ∧ ∀ k, resp.attachment.get k = m.get k) ∧
      (∀ msg, (none : Option GoString) = some msg →
        resp.value = none ∧ resp.attachment = [] ∧ (200 : Int) = 502 ∧ msg = parseErrMsg ∧
        resp.exception = some { errCode := 502, errMsg := msg, errType := 502 }) :=
  ⟨⟨by decide, by decide⟩, by decide,
   C17_map_step (exampleURL HTTPMethodPOST) exampleRequest
     (exampleRuntime List.reverse ⟨exampleOutput "Status: 200 OK".toList, none⟩)
     exampleEnvPost examplePayload ⟨exampleOutput "Status: 200 OK".toList, none⟩
     { status := 200, headers := some exampleHeaders, body := "body".toList, err := none }
     (fun m => List.reverse_perm m) (by decide) rfl (by decide)⟩

theorem encodeStep_transport (url : URL) (request : Request) (rt : Runtime) (t : Transport) :
    encodeStep url request { rt with transport := t } = encodeStep url request rt := rfl

theorem mapStep_transport (request : Request) (rt : Runtime) (t : Transport)
    (r : ParseResult) : mapStep request { rt with transport := t } r = mapStep request rt r :=
  rfl

/-- Claim C18 (amended): the error of the FastCGI client is logged and has no influence on
the response. When the raw content holds no CR LF CR LF (an empty content, for instance),
`Call` returns a response whose exception is set, with code 502, and whose value is unset;
in every case the response is the one `Call` returns for the same content without an
error. -/
theorem C18_transport_error_ignored (url : URL) (request : Request) (rt : Runtime)
    (env : GoMap) (body content : GoString) (terr : Option GoString)
    (henv : encodeStep url request rt = .ok (env, body))
    (hout : rt.transport (cgiHostOf url) (cgiPortOf url) env body = .ok ⟨content, terr⟩) :
    (¬ sepCRLFCRLF <:+: content →
      ∃ resp, Call (some url) request rt = some resp ∧ resp.value = none ∧
        resp.attachment = [] ∧
        resp.exception = some { errCode := 502, errMsg := parseErrMsg, errType := 502 }) ∧
    (∀ t : Transport, t (cgiHostOf url) (cgiPortOf url) env body = .ok ⟨content, none⟩ →
      Call (some url) request { rt with transport := t } = Call (some url) request rt) := by
  constructor
  · intro hno
    have hp := Parse_of_cut_none (cutAt_eq_none.mpr hno)
    exact ⟨_, Call_of_parse henv hout hp, rfl, rfl, rfl⟩
  · intro t ht
    have henv2 : encodeStep url request { rt with transport := t } = .ok (env, body) := henv
    cases hp : ParseFastCgiResponse content with
    | error e =>
      rw [Call_of_parse_panic henv hout hp]
      exact @Call_of_parse_panic url request { rt with transport := t } env body _ _ henv2 ht hp
    | ok r =>
      rw [Call_of_parse henv hout hp]
      exact @Call_of_parse url request { rt with transport := t } env body _ _ henv2 ht hp

theorem C18_transport_error_ignored_witness :
    encodeStep (exampleURL HTTPMethodPOST) exampleRequest
        (exampleRuntime List.reverse ⟨[], some "EOF".toList⟩) =
      .ok (exampleEnvPost, examplePayload) ∧
    ¬ sepCRLFCRLF <:+: ([] : GoString) ∧
    Call (some (exampleURL HTTPMethodPOST)) exampleRequest
        (exampleRuntime List.reverse ⟨[], some "EOF".toList⟩) =
      some { requestID := 42, processTime := 5, attachment := [], value := none,
             exception := some { errCode := 502, errMsg := parseErrMsg, errType := 502 } } ∧
    ((¬ sepCRLFCRLF <:+: ([] : GoString) →
      ∃ resp, Call (some (exampleURL HTTPMethodPOST)) exampleRequest
          (exampleRuntime List.reverse ⟨[], some "EOF".toList⟩) = some resp ∧
        resp.value = none ∧ resp.attachment = [] ∧
        resp.exception = some { errCode := 502, errMsg := parseErrMsg, errType := 502 }) ∧
     (∀ t : Transport,
        t (cgiHostOf (exampleURL HTTPMethodPOST)) (cgiPortOf (exampleURL HTTPMethodPOST))
          exampleEnvPost examplePayload = .ok ⟨[], none⟩ →
        Call (some (exampleURL HTTPMethodPOST)) exampleRequest
          { exampleRuntime List.reverse ⟨[], some "EOF".toList⟩ with transport := t } =
        Call (some (exampleURL HTTPMethodPOST)) exampleRequest
          (exampleRuntime List.reverse ⟨[], some "EOF".toList⟩))) :=
  ⟨by decide, by decide, by decide,
   C18_transport_error_ignored (exampleURL HTTPMethodPOST) exampleRequest
     (exampleRuntime List.reverse ⟨[], some "EOF".toList⟩)
     exampleEnvPost examplePayload [] (some "EOF".toList) (by decide) rfl⟩

/-- Claim C18 as stated fails: the FastCGI client returns an error together with a content
that holds a separator, and `Call` returns a response whose value is set and whose
exception is unset. -/
theorem C18_error_with_content_counterexample :
    Call (some (exampleURL HTTPMethodPOST)) exampleRequest
        (exampleRuntime id ⟨"X-A: 1\r\n\r\npartial".toList, some "unexpected EOF".toList⟩) =
      some { requestID := 42, processTime := 5,
             attachment := [("X-A".toList, "1".toList)],
             value := some "partial".toList, exception := none } := by
  decide

/-- Claim C19 (refuted by the code): when a step of `Call` panics, the deferred function
recovers and logs, and `Call` returns the nil response. The panics here are the
out-of-range index of the parser on `Status:404`, the nil first argument in the encoder,
and the nil configuration. -/
theorem C19_recovered_panic_returns_nil :
    Call (some (exampleURL HTTPMethodGET)) exampleRequest
        (exampleRuntime id ⟨"Status:404\r\n\r\n".toList, none⟩) = none ∧
    Call (some (exampleURL HTTPMethodGET))
        { deserializeErr := none, arguments := [Arg.nilValue], requestID := 42,
          attachments := [] }
        (exampleRuntime id ⟨"X-A: 1\r\n\r\nbody".toList, none⟩) = none ∧
    Call none exampleRequest (exampleRuntime id ⟨"X-A: 1\r\n\r\nbody".toList, none⟩) = none ∧
    Call (some (exampleURL HTTPMethodGET)) exampleRequest
        { exampleRuntime id ⟨[], none⟩ with
          transport := fun _ _ _ _ => .error "invalid memory address or nil pointer dereference" } =
      none := by
  decide

/-- Claim C20: two raw outputs on which the parser succeeds with the same header map and
the same body, whatever their status codes, make `Call` return responses with the same
value, the same attachments and no exception. -/
theorem C20_status_not_in_response (url : URL) (request : Request) (rt : Runtime)
    (env : GoMap) (body : GoString) (out1 out2 : TransportResult) (t2 : Transport)
    (r1 r2 : ParseResult)
    (henv : encodeStep url request rt = .ok (env, body))
    (hout1 : rt.transport (cgiHostOf url) (cgiPortOf url) env body = .ok out1)
    (hout2 : t2 (cgiHostOf url) (cgiPortOf url) env body = .ok out2)
    (hparse1 : ParseFastCgiResponse out1.content = .ok r1)
    (hparse2 : ParseFastCgiResponse out2.content = .ok r2)
    (herr1 : r1.err = none) (herr2 : r2.err = none)
    (hheaders : r1.headers = r2.headers) (hbody : r1.body = r2.body) :
    ∃ resp1 resp2,
      Call (some url) request rt = some resp1 ∧
      Call (some url) request { rt with transport := t2 } = some resp2 ∧
      resp1.value = resp2.value ∧ resp1.attachment = resp2.attachment ∧
      resp1.exception = none ∧ resp2.exception = none := by
  have henv2 : encodeStep url request { rt with transport := t2 } = .ok (env, body) := henv
  refine ⟨mapStep request rt r1, mapStep request rt r2, Call_of_parse henv hout1 hparse1,
    @Call_of_parse url request { rt with transport := t2 } env body _ _ henv2 hout2 hparse2,
    ?_, ?_, ?_, ?_⟩
  · simp [mapStep, herr1, herr2, hbody]
  · simp [mapStep, herr1, herr2, hheaders]
  · simp [mapStep, herr1]
  · simp [mapStep, herr2]

theorem C20_status_not_in_response_witness :
    (ParseFastCgiResponse (exampleOutput "Status: 200 OK".toList) =
      .ok { status := 200, headers := some exampleHeaders, body := "body".toList,
            err := none } ∧
     ParseFastCgiResponse (exampleOutput "Status: 500 Internal Server Error".toList) =
      .ok { status := 500, headers := some exampleHeaders, body := "body".toList,
            err := none }) ∧
    ∃ resp1 resp2,
      Call (some (exampleURL HTTPMethodPOST)) exampleRequest
        (exampleRuntime List.reverse ⟨exampleOutput "Status: 200 OK".toList, none⟩) =
          some resp1 ∧
      Call (some (exampleURL HTTPMethodPOST)) exampleRequest
        { exampleRuntime List.reverse ⟨exampleOutput "Status: 200 OK".toList, none⟩ with
          transport := fun _ _ _ _ =>
            .ok ⟨exampleOutput "Status: 500 Internal Server Error".toList, none⟩ } =
          some resp2 ∧
      resp1.value = resp2.value ∧ resp1.attachment = resp2.attachment ∧
      resp1.exception = none ∧ resp2.exception = none :=
  ⟨⟨by decide, by decide⟩,
   C20_status_not_in_response (exampleURL HTTPMethodPOST) exampleRequest
     (exampleRuntime List.reverse ⟨exampleOutput "Status: 200 OK".toList, none⟩)
     exampleEnvPost examplePayload
     ⟨exampleOutput "Status: 200 OK".toList, none⟩
     ⟨exampleOutput "Status: 500 Internal Server Error".toList, none⟩
     (fun _ _ _ _ => .ok ⟨exampleOutput "Status: 500 Internal Server Error".toList, none⟩)
     { status := 200, headers := some exampleHeaders, body := "body".toList, err := none }
     { status := 500, headers := some exampleHeaders, body := "body".toList, err := none }
     (by decide) rfl rfl (by decide) (by decide) rfl rfl rfl rfl⟩

set_option maxRecDepth 200000 in
theorem unreserved_byte_facts : ∀ b < 256, b ≠ 0x20 → shouldEscape b = false →
    (Char.ofNat b ≠ '%' ∧ Char.ofNat b ≠ '+' ∧ utf8Bytes (Char.ofNat b) = [b]) := by decide

theorem hexVal_upperhex : ∀ n < 16, hexVal (upperhex n) = some n := by decide

set_option maxRecDepth 200000 in
theorem escapeByte_no_separator : ∀ b < 256, ∀ c ∈ escapeByte b, c ≠ '&' ∧ c ≠ '=' := by
  decide

theorem Char_toNat_lt (c : Char) : c.toNat < 0x110000 := by
  have h := c.valid
  have e : c.toNat = c.val.toNat := rfl
  rw [e]
  rcases h with h | h
  · have : c.val.toNat < 0xd800 := h
    omega
  · exact h.2

theorem utf8Decode_cons (b0 : Nat) (rest : List Nat) :
    utf8Decode (b0 :: rest) =
      (if b0 < 0x80 then Char.ofNat b0 :: utf8Decode rest
       else if b0 < 0xC0 then Char.ofNat 0xFFFD :: utf8Decode rest
       else if b0 < 0xE0 then
         match rest with
         | b1 :: rest1 => Char.ofNat ((b0 - 0xC0) * 64 + (b1 - 0x80)) :: utf8Decode rest1
         | _ => [Char.ofNat 0xFFFD]
       else if b0 < 0xF0 then
         match rest with
         | b1 :: b2 :: rest2 =>
           Char.ofNat ((b0 - 0xE0) * 4096 + (b1 - 0x80) * 64 + (b2 - 0x80)) :: utf8Decode rest2
         | _ => [Char.ofNat 0xFFFD]
       else
         match rest with
         | b1 :: b2 :: b3 :: rest3 =>
           Char.ofNat
               ((b0 - 0xF0) * 262144 + (b1 - 0x80) * 4096 + (b2 - 0x80) * 64 + (b3 - 0x80))
             :: utf8Decode rest3
         | _ => [Char.ofNat 0xFFFD]) := by
  cases rest with
  | nil => rfl
  | cons b1 r1 =>
    cases r1 with
    | nil => rfl
    | cons b2 r2 =>
      cases r2 with
      | nil => rfl
      | cons b3 r3 => rfl

theorem utf8Decode_one (b0 : Nat) (rest : List Nat) (h : b0 < 0x80) :
    utf8Decode (b0 :: rest) = Char.ofNat b0 :: utf8Decode rest := by
  rw [utf8Decode_cons, if_pos h]

theorem utf8Decode_two (b0 b1 : Nat) (rest : List Nat) (h1 : 0xC0 ≤ b0) (h2 : b0 < 0xE0) :
    utf8Decode (b0 :: b1 :: rest) =
      Char.ofNat ((b0 - 0xC0) * 64 + (b1 - 0x80)) :: utf8Decode rest := by
  rw [utf8Decode_cons, if_neg (by omega), if_neg (by omega), if_pos h2]

theorem utf8Decode_three (b0 b1 b2 : Nat) (rest : List Nat) (h1 : 0xE0 ≤ b0)
    (h2 : b0 < 0xF0) :
    utf8Decode (b0 :: b1 :: b2 :: rest) =
      Char.ofNat ((b0 - 0xE0) * 4096 + (b1 - 0x80) * 64 + (b2 - 0x80)) :: utf8Decode rest := by
  rw [utf8Decode_cons, if_neg (by omega), if_neg (by omega), if_neg (by omega), if_pos h2]

theorem utf8Decode_four (b0 b1 b2 b3 : Nat) (rest : List Nat) (h1 : 0xF0 ≤ b0) :
    utf8Decode (b0 :: b1 :: b2 :: b3 :: rest) =
      Char.ofNat ((b0 - 0xF0) * 262144 + (b1 - 0x80) * 4096 + (b2 - 0x80) * 64 + (b3 - 0x80))
        :: utf8Decode rest := by
  rw [utf8Decode_cons, if_neg (by omega), if_neg (by omega), if_neg (by omega),
    if_neg (by omega)]

theorem utf8Decode_utf8Bytes (c : Char) (bs : List Nat) :
    utf8Decode (utf8Bytes c ++ bs) = c :: utf8Decode bs := by
  have hlt := Char_toNat_lt c
  have hc := Char.ofNat_toNat c
  unfold utf8Bytes
  simp only []
  generalize c.toNat = n at hlt hc
  by_cases h1 : n < 0x80
  · rw [if_pos h1, List.singleton_append, utf8Decode_one _ _ h1, hc]
  · rw [if_neg h1]
    by_cases h2 : n < 0x800
    · have e : (0xC0 + n / 64 - 0xC0) * 64 + (0x80 + n % 64 - 0x80) = n := by omega
      rw [if_pos h2]
      simp only [List.cons_append, List.nil_append]
      rw [utf8Decode_two _ _ _ (by omega) (by omega), e, hc]
    · rw [if_neg h2]
      by_cases h3 : n < 0x10000
      · have e : (0xE0 + n / 4096 - 0xE0) * 4096 + (0x80 + n / 64 % 64 - 0x80) * 64 +
            (0x80 + n % 64 - 0x80) = n := by omega
        rw [if_pos h3]
        simp only [List.cons_append, List.nil_append]
        rw [utf8Decode_three _ _ _ _ (by omega) (by omega), e, hc]
      · have e : (0xF0 + n / 262144 - 0xF0) * 262144 + (0x80 + n / 4096 % 64 - 0x80) * 4096 +
            (0x80 + n / 64 % 64 - 0x80) * 64 + (0x80 + n % 64 - 0x80) = n := by omega
        rw [if_neg h3]
        simp only [List.cons_append, List.nil_append]
        rw [utf8Decode_four _ _ _ _ _ (by omega), e, hc]

theorem utf8Decode_flatMap (s : GoString) : utf8Decode (s.flatMap utf8Bytes) = s := by
  induction s with
  | nil => rfl
  | cons c cs ih => rw [List.flatMap_cons, utf8Decode_utf8Bytes, ih]

theorem utf8Bytes_lt (c : Char) : ∀ b ∈ utf8Bytes c, b < 256 := by
  have hlt := Char_toNat_lt c
  unfold utf8Bytes
  simp only []
  generalize c.toNat = n at hlt
  intro b hb
  split at hb
  · simp only [List.mem_singleton] at hb; omega
  · split at hb
    · simp only [List.mem_cons, List.mem_singleton, List.not_mem_nil, or_false] at hb
      omega
    · split at hb
      · simp only [List.mem_cons, List.mem_singleton, List.not_mem_nil, or_false] at hb
        omega
      · simp only [List.mem_cons, List.mem_singleton, List.not_mem_nil, or_false] at hb
        omega

theorem unescapeBytes_cons (c : Char) (rest : GoString) :
    unescapeBytes (c :: rest) =
      (if c = '%' then
        match rest with
        | h1 :: h2 :: rest2 =>
          match hexVal h1, hexVal h2, unescapeBytes rest2 with
          | some a, some b, some bs => some ((a * 16 + b) :: bs)
          | _, _, _ => none
        | _ => none
      else if c = '+' then
        match unescapeBytes rest with
        | some bs => some (0x20 :: bs)
        | none => none
      else
        match unescapeBytes rest with
        | some bs => some (utf8Bytes c ++ bs)
        | none => none) := by
  cases rest with
  | nil => rfl
  | cons h1 r1 =>
    cases r1 with
    | nil => rfl
    | cons h2 r2 => rfl

theorem unescapeBytes_escapeByte (b : Nat) (hb : b < 256) (t : GoString) :
    unescapeBytes (escapeByte b ++ t) =
      match unescapeBytes t with
      | some bs => some (b :: bs)
      | none => none := by
  unfold escapeByte
  by_cases h1 : b = 0x20
  · rw [if_pos h1, List.singleton_append, unescapeBytes_cons, if_neg (by decide),
      if_pos rfl, h1]
  · rw [if_neg h1]
    by_cases h2 : shouldEscape b = true
    · rw [if_pos h2]
      simp only [List.cons_append, List.nil_append]
      rw [unescapeBytes_cons, if_pos rfl]
      simp only []
      rw [hexVal_upperhex (b / 16) (by omega), hexVal_upperhex (b % 16) (by omega)]
      have e : b / 16 * 16 + b % 16 = b := by omega
      cases unescapeBytes t with
      | none => rfl
      | some bs => simp only [e]
    · have h3 : shouldEscape b = false := by simpa using h2
      obtain ⟨f1, f2, f3⟩ := unreserved_byte_facts b hb h1 h3
      rw [if_neg h2, List.singleton_append, unescapeBytes_cons, if_neg f1, if_neg f2, f3]
      cases unescapeBytes t with
      | none => rfl
      | some bs => rfl

theorem unescapeBytes_flatMap_escapeByte (t : GoString) :
    ∀ bs : List Nat, (∀ b ∈ bs, b < 256) →
      unescapeBytes (bs.flatMap escapeByte ++ t) =
        match unescapeBytes t with
        | some r => some (bs ++ r)
        | none => none := by
  intro bs
  induction bs with
  | nil =>
    intro _
    simp only [List.flatMap_nil, List.nil_append]
    cases unescapeBytes t <;> rfl
  | cons b rest ih =>
    intro h
    rw [List.flatMap_cons, List.append_assoc,
      unescapeBytes_escapeByte b (h b (List.mem_cons_self _ _)),
      ih (fun x hx => h x (List.mem_cons_of_mem _ hx))]
    cases unescapeBytes t <;> rfl

theorem unescapeBytes_QueryEscape (v : GoString) :
    unescapeBytes (QueryEscape v) = some (v.flatMap utf8Bytes) := by
  unfold QueryEscape
  induction v with
  | nil => rfl
  | cons c cs ih =>
    rw [List.flatMap_cons, unescapeBytes_flatMap_escapeByte _ _ (utf8Bytes_lt c), ih]
    rfl

theorem unescapeBytes_plain :
    ∀ s : GoString, '%' ∉ s → '+' ∉ s → unescapeBytes s = some (s.flatMap utf8Bytes) := by
  intro s
  induction s with
  | nil => intro _ _; rfl
  | cons c cs ih =>
    intro h1 h2
    simp only [List.mem_cons, not_or] at h1 h2
    rw [unescapeBytes_cons, if_neg (fun e => h1.1 e.symm), if_neg (fun e => h2.1 e.symm),
      ih h1.2 h2.2]
    rfl

theorem QueryUnescape_QueryEscape (v : GoString) : QueryUnescape (QueryEscape v) = some v := by
  simp [QueryUnescape, unescapeBytes_QueryEscape, utf8Decode_flatMap]

theorem QueryUnescape_plain (s : GoString) (h1 : '%' ∉ s) (h2 : '+' ∉ s) :
    QueryUnescape s = some s := by
  simp [QueryUnescape, unescapeBytes_plain s h1 h2, utf8Decode_flatMap]

/-! ## Decoding the payload -/

theorem digitChar_isDigit : ∀ k < 10, isDigit (Nat.digitChar k) = true := by decide

theorem toDigitsCore_isDigit :
    ∀ (fuel n : Nat) (ds : List Char), (∀ c ∈ ds, isDigit c = true) →
      ∀ c ∈ Nat.toDigitsCore 10 fuel n ds, isDigit c = true := by
  intro fuel
  induction fuel with
  | zero => intro n ds h; simpa [Nat.toDigitsCore] using h
  | succ fuel ih =>
    intro n ds h
    have hd : isDigit (Nat.digitChar (n % 10)) = true :=
      digitChar_isDigit _ (Nat.mod_lt _ (by decide))
    have hds : ∀ c ∈ Nat.digitChar (n % 10) :: ds, isDigit c = true := by
      intro c hc
      rcases List.mem_cons.mp hc with e | e
      · rw [e]; exact hd
      · exact h c e
    simp only [Nat.toDigitsCore]
    split
    · exact hds
    · exact ih _ _ hds

theorem formatDecimal_isDigit (n : Nat) : ∀ c ∈ formatDecimal n, isDigit c = true :=
  toDigitsCore_isDigit _ _ [] (fun _ h => by cases h)

theorem not_mem_of_all_isDigit {s : GoString} (h : ∀ c ∈ s, isDigit c = true) (x : Char)
    (hx : isDigit x = false) : x ∉ s := by
  intro hmem
  rw [h x hmem] at hx
  cases hx

theorem cutAt_single_append {c : Char} {p : GoString} (rest : GoString) (h : c ∉ p) :
    cutAt [c] (p ++ c :: rest) = some (p, rest) := by
  rw [cutAt_single, if_pos (by simp), takeWhile_append_cons_ne p rest h,
    dropWhile_append_cons_ne p rest h]
  rfl

theorem cutAt_single_none {c : Char} {p : GoString} (h : c ∉ p) : cutAt [c] p = none := by
  rw [cutAt_single, if_neg h]

theorem joinAmp_cons_cons (f g : GoString) (fs : List GoString) :
    joinAmp (f :: g :: fs) = f ++ '&' :: joinAmp (g :: fs) := by
  simp [joinAmp]

theorem length_joinAmp :
    ∀ pieces : List GoString, pieces.length ≤ (joinAmp pieces).length + 1 := by
  intro pieces
  induction pieces with
  | nil => simp
  | cons p ps ih =>
    cases ps with
    | nil => simp
    | cons q qs =>
      rw [joinAmp_cons_cons]
      simp only [List.length_cons, List.length_append] at ih ⊢
      omega

theorem splitLoop_joinAmp :
    ∀ (pieces : List GoString) (k : Nat), pieces ≠ [] → (∀ p ∈ pieces, '&' ∉ p) →
      pieces.length ≤ k + 1 → splitLoop ['&'] k (joinAmp pieces) = pieces := by
  intro pieces
  induction pieces with
  | nil => intro k h; exact absurd rfl h
  | cons p ps ih =>
    intro k _ h hk
    have hp := h p (List.mem_cons_self _ _)
    cases ps with
    | nil =>
      cases k with
      | zero => simp [joinAmp, splitLoop]
      | succ k => simp [joinAmp, splitLoop, cutAt_single_none hp]
    | cons q qs =>
      cases k with
      | zero => simp at hk
      | succ k =>
        rw [joinAmp_cons_cons]
        simp only [splitLoop, cutAt_single_append _ hp]
        rw [ih k (by simp) (fun x hx => h x (List.mem_cons_of_mem _ hx))
          (by simp only [List.length_cons] at hk ⊢; omega)]

theorem Split_joinAmp (pieces : List GoString) (hne : pieces ≠ [])
    (h : ∀ p ∈ pieces, '&' ∉ p) : Split (joinAmp pieces) ['&'] = pieces := by
  rw [Split_eq (by simp)]
  exact splitLoop_joinAmp pieces _ hne h (length_joinAmp pieces)

theorem joinAmp_append_singleton (fs : List GoString) (r : GoString) (hne : fs ≠ []) :
    joinAmp (fs ++ [r]) = joinAmp fs ++ '&' :: r := by
  cases fs with
  | nil => exact absurd rfl hne
  | cons f fs => simp [joinAmp_cons]

theorem QueryEscape_no_separator (v : GoString) :
    ∀ c ∈ QueryEscape v, c ≠ '&' ∧ c ≠ '=' := by
  intro c hc
  unfold QueryEscape at hc
  simp only [List.mem_flatMap] at hc
  obtain ⟨x, _, b, hb, hcb⟩ := hc
  exact escapeByte_no_separator b (utf8Bytes_lt x b hb) c hcb

theorem amp_not_mem_renderField (kv : GoString × GoString) (h : '&' ∉ kv.1) :
    '&' ∉ renderField kv := by
  unfold renderField
  simp only [List.mem_append, List.mem_singleton, not_or]
  exact ⟨⟨h, by decide⟩, fun hc => (QueryEscape_no_separator kv.2 _ hc).1 rfl⟩

theorem decodeField_renderField (kv : GoString × GoString) (h1 : '=' ∉ kv.1)
    (h2 : '%' ∉ kv.1) (h3 : '+' ∉ kv.1) : decodeField (renderField kv) = some kv := by
  have hne : renderField kv ≠ [] := by simp [renderField]
  have hcut : cutField (renderField kv) = (kv.1, QueryEscape kv.2) := by
    unfold cutField renderField
    rw [List.append_assoc, List.singleton_append, takeWhile_append_cons_ne _ _ h1,
      dropWhile_append_cons_ne _ _ h1]
    rfl
  simp [decodeField, hne, hcut, QueryUnescape_QueryEscape, QueryUnescape_plain _ h2 h3]

theorem decodeField_requestId (n : Nat) :
    decodeField (requestIdName ++ '=' :: formatDecimal n) =
      some (requestIdName, formatDecimal n) := by
  have hd := formatDecimal_isDigit n
  have hne : requestIdName ++ '=' :: formatDecimal n ≠ [] := by simp
  have hcut : cutField (requestIdName ++ '=' :: formatDecimal n) =
      (requestIdName, formatDecimal n) := by
    unfold cutField
    rw [takeWhile_append_cons_ne _ _ (by decide), dropWhile_append_cons_ne _ _ (by decide)]
    rfl
  simp [decodeField, hne, hcut, QueryUnescape_plain requestIdName (by decide) (by decide),
    QueryUnescape_plain _ (not_mem_of_all_isDigit hd '%' (by decide))
      (not_mem_of_all_isDigit hd '+' (by decide))]

theorem filterMap_decodeField_render :
    ∀ l : GoMap, (∀ kv ∈ l, '=' ∉ kv.1 ∧ '%' ∉ kv.1 ∧ '+' ∉ kv.1) →
      (l.map renderField).filterMap decodeField = l := by
  intro l
  induction l with
  | nil => intro _; rfl
  | cons kv rest ih =>
    intro h
    obtain ⟨h1, h2, h3⟩ := h kv (List.mem_cons_self _ _)
    rw [List.map_cons, List.filterMap_cons, decodeField_renderField kv h1 h2 h3,
      ih (fun x hx => h x (List.mem_cons_of_mem _ hx))]

theorem formDecode_payload (l : GoMap) (n : Nat)
    (h : ∀ kv ∈ l, '&' ∉ kv.1 ∧ '=' ∉ kv.1 ∧ '%' ∉ kv.1 ∧ '+' ∉ kv.1) :
    formDecode (joinAmp (l.map renderField) ++ requestIdField ++ formatDecimal n) =
      l ++ [(requestIdName, formatDecimal n)] := by
  have hd := formatDecimal_isDigit n
  have hrid : '&' ∉ requestIdName ++ '=' :: formatDecimal n := by
    simp only [List.mem_append, List.mem_cons, not_or]
    exact ⟨by decide, by decide, not_mem_of_all_isDigit hd '&' (by decide)⟩
  have hfield : requestIdField ++ formatDecimal n =
      '&' :: (requestIdName ++ '=' :: formatDecimal n) := by
    simp [requestIdField, requestIdName]
  have hdec := filterMap_decodeField_render l (fun kv hkv => (h kv hkv).2)
  unfold formDecode
  rw [List.append_assoc, hfield]
  cases hl : l with
  | nil =>
    have e : joinAmp (List.map renderField []) ++
        '&' :: (requestIdName ++ '=' :: formatDecimal n) =
        joinAmp [[], requestIdName ++ '=' :: formatDecimal n] := by
      simp [joinAmp]
    rw [e, Split_joinAmp _ (by simp)]
    · simp only [List.filterMap_cons, decodeField_requestId, List.filterMap_nil,
        List.nil_append]
      rfl
    · intro p hp
      rcases List.mem_cons.mp hp with e1 | e1
      · rw [e1]; simp
      · rw [List.mem_singleton.mp e1]; exact hrid
  | cons kv rest =>
    rw [← hl, ← joinAmp_append_singleton _ _ (by simp [hl]), Split_joinAmp _ (by simp)]
    · rw [List.filterMap_append, hdec]
      simp [decodeField_requestId]
    · intro p hp
      rcases List.mem_append.mp hp with e1 | e1
      · obtain ⟨x, hx, rfl⟩ := List.mem_map.mp e1
        exact amp_not_mem_renderField x (h x hx).1
      · rw [List.mem_singleton.mp e1]; exact hrid

/-- Claim C14 (amended): in the "simple" mode, for a mapping `m` none of whose keys holds
`&`, `=`, `%` or `+`, decoding the payload of `buildQueryStr` with the form decoding
(split on `&`, split each field on its first `=`, unescape name and value) gives exactly
the entries of `m` and the field `requestIdFromClient` with the request id in decimal.
The keys are written verbatim, the values escaped. -/
theorem C14_decoding_undoes_encoding (request : Request) (url : URL) (order : RangeOrder)
    (m : GoMap) (hdeser : request.deserializeErr = none)
    (hmode : url.parameters.getD serializationKey = Simple)
    (harg : request.arguments.head? = some (Arg.strMap m))
    (horder : (order m).Perm m)
    (hkeys : ∀ kv ∈ m, '&' ∉ kv.1 ∧ '=' ∉ kv.1 ∧ '%' ∉ kv.1 ∧ '+' ∉ kv.1) :
    ∃ payload, buildQueryStr request url order = .ok (payload, none) ∧
      (formDecode payload).Perm (m ++ [(requestIdName, formatDecimal request.requestID)]) := by
  refine ⟨_, buildQueryStr_strMap request url order m hdeser hmode harg, ?_⟩
  rw [formDecode_payload (order m) request.requestID
    (fun kv hkv => hkeys kv (horder.mem_iff.mp hkv))]
  exact horder.append_right _

theorem C14_decoding_undoes_encoding_witness :
    (∀ kv ∈ [("é".toList, "x y&z=€".toList), ("requestIdFromClient".toList, "9".toList)],
      '&' ∉ kv.1 ∧ '=' ∉ kv.1 ∧ '%' ∉ kv.1 ∧ '+' ∉ kv.1) ∧
    buildQueryStr
        { deserializeErr := none,
          arguments := [Arg.strMap [("é".toList, "x y&z=€".toList),
            ("requestIdFromClient".toList, "9".toList)]],
          requestID := 42, attachments := [] }
        { parameters := [(serializationKey, Simple)] } List.reverse =
      .ok ("requestIdFromClient=9&é=x+y%26z%3D%E2%82%AC&requestIdFromClient=42".toList, none) ∧
    formDecode "requestIdFromClient=9&é=x+y%26z%3D%E2%82%AC&requestIdFromClient=42".toList =
      [("requestIdFromClient".toList, "9".toList), ("é".toList, "x y&z=€".toList),
       ("requestIdFromClient".toList, "42".toList)] ∧
    ∃ payload,
      buildQueryStr
          { deserializeErr := none,
            arguments := [Arg.strMap [("é".toList, "x y&z=€".toList),
              ("requestIdFromClient".toList, "9".toList)]],
            requestID := 42, attachments := [] }
          { parameters := [(serializationKey, Simple)] } List.reverse =
        .ok (payload, none) ∧
      (formDecode payload).Perm
        ([("é".toList, "x y&z=€".toList), ("requestIdFromClient".toList, "9".toList)] ++
          [(requestIdName, formatDecimal 42)]) :=
  ⟨by decide, by decide, by decide,
   C14_decoding_undoes_encoding
     { deserializeErr := none,
       arguments := [Arg.strMap [("é".toList, "x y&z=€".toList),
         ("requestIdFromClient".toList, "9".toList)]],
       requestID := 42, attachments := [] }
     { parameters := [(serializationKey, Simple)] } List.reverse
     [("é".toList, "x y&z=€".toList), ("requestIdFromClient".toList, "9".toList)]
     rfl (by decide) rfl (List.reverse_perm _) (by decide)⟩

/-- Claim C14 as stated fails: a key that holds `&` is written verbatim, so the decoding
splits it into two fields and the entry of the mapping is not recovered; likewise a key
that holds `+` is decoded with a space. -/
theorem C14_key_not_escaped_counterexample :
    buildQueryStr
        { deserializeErr := none, arguments := [Arg.strMap [("a&b".toList, "1".toList)]],
          requestID := 7, attachments := [] }
        { parameters := [(serializationKey, Simple)] } id =
      .ok ("a&b=1&requestIdFromClient=7".toList, none) ∧
    formDecode "a&b=1&requestIdFromClient=7".toList =
      [("a".toList, []), ("b".toList, "1".toList),
       ("requestIdFromClient".toList, "7".toList)] ∧
    ("a&b".toList, "1".toList) ∉ formDecode "a&b=1&requestIdFromClient=7".toList ∧
    buildQueryStr
        { deserializeErr := none, arguments := [Arg.strMap [("a+b".toList, "1".toList)]],
          requestID := 7, attachments := [] }
        { parameters := [(serializationKey, Simple)] } id =
      .ok ("a+b=1&requestIdFromClient=7".toList, none) ∧
    formDecode "a+b=1&requestIdFromClient=7".toList =
      [("a b".toList, "1".toList), ("requestIdFromClient".toList, "7".toList)] := by
  decide

end CgiProvider
